import Mathlib

/-!
Verification of the Gullak MCP expense/budget command interpreter
(src/main.py, tool expense_budget_monitor) against its specification.

The interpreter is embedded shallowly: Python dicts become ordered
association lists (insertion order preserved, update in place), Python
floats become exact rationals, each return site of the Python tool
becomes a constructor of the Resp type, and the mutable per-user state
becomes explicit state passing.  get_user_state returns a reference to
the cached dict, so in-place mutations persist even when the command
returns an error before reaching save_user_state; the embedding mirrors
this by returning the (possibly partially) updated ledger together with
the response.  Wall-clock inputs (datetime.utcnow) are supplied through
an Env record: nowMonth is utcnow().strftime of the month name, nowIso
is utcnow().isoformat().
-/

set_option maxHeartbeats 1000000

/-- Python whitespace test, used by str.split(), str.strip() and the
regex class backslash-s, restricted to the ASCII range commands use. -/
def isSpaceC (c : Char) : Bool :=
  decide (c.toNat = 32 ∨ c.toNat = 9 ∨ c.toNat = 10 ∨ c.toNat = 13 ∨ c.toNat = 11 ∨ c.toNat = 12)

/-- ASCII digit test (regex class backslash-d, float digit). -/
def isDigitC (c : Char) : Bool :=
  decide (48 ≤ c.toNat ∧ c.toNat ≤ 57)

/-- ASCII lower-casing of one character, the effect of str.lower() on the
character range commands use. -/
def pyLowerChar (c : Char) : Char :=
  if 65 ≤ c.toNat ∧ c.toNat ≤ 90 then Char.ofNat (c.toNat + 32) else c

/-- ASCII upper-casing of one character, the effect of str.upper() on the
first character in str.capitalize(). -/
def pyUpperChar (c : Char) : Char :=
  if 97 ≤ c.toNat ∧ c.toNat ≤ 122 then Char.ofNat (c.toNat - 32) else c

/-- str.lower() over a character list. -/
def pyLowerL (l : List Char) : List Char := l.map pyLowerChar

/-- str.strip() with no argument: remove leading and trailing whitespace. -/
def pyStripL (l : List Char) : List Char :=
  ((l.dropWhile isSpaceC).reverse.dropWhile isSpaceC).reverse

/-- Accumulator loop for str.split() with no argument. -/
def pySplitAux (acc : List Char) : List Char → List (List Char)
  | [] => if acc = [] then [] else [acc.reverse]
  | c :: rest =>
    if isSpaceC c then
      if acc = [] then pySplitAux [] rest else acc.reverse :: pySplitAux [] rest
    else
      pySplitAux (c :: acc) rest

/-- str.split() with no argument: split on whitespace runs, no empty tokens. -/
def pySplitL (l : List Char) : List (List Char) := pySplitAux [] l

/-- str.capitalize(): first character upper-cased, the rest lower-cased. -/
def pyCapitalizeL (l : List Char) : String :=
  match l with
  | [] => ""
  | c :: cs => String.mk (pyUpperChar c :: cs.map pyLowerChar)

/-- Helper for float() parsing: split a character list at the first
character satisfying p, returning the prefix and, when a split happened,
the suffix after the separator. -/
def splitAtFirst (p : Char → Bool) (acc : List Char) : List Char → List Char × Option (List Char)
  | [] => (acc.reverse, none)
  | c :: rest =>
    if p c then (acc.reverse, some rest) else splitAtFirst p (c :: acc) rest

/-- Detects two adjacent underscores, which float() rejects. -/
def hasDoubleUnderscore : List Char → Bool
  | '_' :: '_' :: _ => true
  | _ :: rest => hasDoubleUnderscore rest
  | [] => false

/-- A digit run as accepted inside float() literals: nonempty, only
digits and underscores, underscores strictly between digits. -/
def digitRunOk (l : List Char) : Bool :=
  decide (l ≠ []) &&
  l.all (fun c => isDigitC c || decide (c = '_')) &&
  decide (l.head? ≠ some '_') &&
  decide (l.getLast? ≠ some '_') &&
  !hasDoubleUnderscore l

/-- Numeric value of a digit list, most significant first, as a rational. -/
def digitsQ (l : List Char) : ℚ :=
  l.foldl (fun a c => a * 10 + ((c.toNat - 48 : ℕ) : ℚ)) 0

/-- Numeric value of a digit list as a natural number (exponents). -/
def digitsN (l : List Char) : ℕ :=
  l.foldl (fun a c => a * 10 + (c.toNat - 48)) 0

/-- Mantissa validity for float(): an optional integer part and optional
fractional part around an optional dot, not both missing. -/
def mantissaOk (ip : List Char) (fp : Option (List Char)) : Bool :=
  match fp with
  | none => digitRunOk ip
  | some f =>
    (decide (ip = []) || digitRunOk ip) &&
    (decide (f = []) || digitRunOk f) &&
    !(decide (ip = []) && decide (f = []))

/-- The rational denoted by a validated float() mantissa: integer part
plus fractional part, underscores dropped. -/
def mantVal (ip : List Char) (fp : Option (List Char)) : ℚ :=
  digitsQ (ip.filter isDigitC) +
    digitsQ ((fp.getD []).filter isDigitC) / (10 : ℚ) ^ ((fp.getD []).filter isDigitC).length

/-- The signed exponent factor of a float() literal. -/
def expFactor (ex : List Char) : Option ℚ :=
  let esgn : ℤ := if ex.head? = some '-' then -1 else 1
  let ex' : List Char := if ex.head? = some '-' ∨ ex.head? = some '+' then ex.tail else ex
  if digitRunOk ex' then some ((10 : ℚ) ^ (esgn * (digitsN (ex'.filter isDigitC) : ℤ)))
  else none

/-- float() after the optional leading sign has been removed. -/
def pyFloatCore (sgn : ℚ) (l' : List Char) : Option ℚ :=
  let me := splitAtFirst (fun c => decide (c = 'e') || decide (c = 'E')) [] l'
  let ipfp := splitAtFirst (fun c => decide (c = '.')) [] me.1
  if mantissaOk ipfp.1 ipfp.2 then
    match me.2 with
    | none => some (sgn * mantVal ipfp.1 ipfp.2)
    | some ex =>
      match expFactor ex with
      | some f => some (sgn * mantVal ipfp.1 ipfp.2 * f)
      | none => none
  else none

/-- Python float() on a whitespace-free token, idealized to exact
rationals: an optional sign, a decimal mantissa with optional fractional
part, and an optional decimal exponent, with underscores allowed between
digits.  The special spellings inf, infinity and nan (not representable
in an exact-rational model) and non-ASCII digits are outside the model
and return none. -/
def pyFloat (l : List Char) : Option ℚ :=
  if l.head? = some '-' then pyFloatCore (-1) l.tail
  else if l.head? = some '+' then pyFloatCore 1 l.tail
  else pyFloatCore 1 l

/-- Greedy match of the regex piece for amounts (digits, optional dot,
more digits) at the head of a list; returns the matched characters and
the remainder.  The piece is always followed in the source regexes by a
whitespace class or the end anchor, neither of which can consume a digit
or a dot, so the greedy match without backtracking is exact. -/
def numTake (l : List Char) : Option (List Char × List Char) :=
  let ds := l.takeWhile isDigitC
  if ds = [] then none
  else
    match l.dropWhile isDigitC with
    | '.' :: r2 => some (ds ++ '.' :: r2.takeWhile isDigitC, r2.dropWhile isDigitC)
    | r => some (ds, r)

/-- Whole-list membership in the amount regex language (used where the
amount is followed by the end anchor). -/
def numExact (l : List Char) : Bool :=
  decide (l.takeWhile isDigitC ≠ []) &&
  (match l.dropWhile isDigitC with
   | [] => true
   | '.' :: r2 => r2.all isDigitC
   | _ => false)

/-- Match of re.match for the spent command regex: the word spent, then
whitespace, an amount, whitespace, the word on, whitespace, and at least
one character; the final group is greedy and stops at a newline.
Returns the amount characters and the raw category group. -/
def spentMatch (cl : List Char) : Option (List Char × List Char) :=
  if ("spent".toList).isPrefixOf cl then
    let r0 := cl.drop 5
    let w1 := r0.takeWhile isSpaceC
    if w1 = [] then none
    else
      match numTake (r0.drop w1.length) with
      | none => none
      | some (num, r1) =>
        let w2 := r1.takeWhile isSpaceC
        if w2 = [] then none
        else
          match r1.drop w2.length with
          | 'o' :: 'n' :: r2 =>
            let w3 := r2.takeWhile isSpaceC
            if w3 = [] then none
            else
              match r2.drop w3.length with
              | [] => none
              | c :: r3 =>
                if c = '\n' then none
                else some (num, c :: r3.takeWhile (fun ch => decide (ch ≠ '\n')))
          | _ => none
  else none

/-- Tail check for the owe regex after a candidate description: the rest
must be whitespace then an amount running to the end anchor. -/
def oweTailCheck (rest : List Char) : Option (List Char) :=
  let v := rest.takeWhile isSpaceC
  if v = [] then none
  else
    let n := rest.drop v.length
    if numExact n then some n else none

/-- Lazy search for the shortest nonempty description group of the owe
regex; the dot class does not match a newline. -/
def oweDescSearch (acc : List Char) : List Char → Option (List Char × List Char)
  | [] => none
  | c :: rest =>
    if c = '\n' then none
    else
      match oweTailCheck rest with
      | some n => some (acc ++ [c], n)
      | none => oweDescSearch (acc ++ [c]) rest

/-- Backtracking over the greedy leading whitespace of the owe regex:
longer whitespace runs are preferred, and for each, the description
group is lazy. -/
def oweWsSearch : ℕ → List Char → Option (List Char × List Char)
  | 0, _ => none
  | k + 1, r0 =>
    match oweDescSearch [] (r0.drop (k + 1)) with
    | some res => some res
    | none => oweWsSearch k r0

/-- Match of re.match for the owe command regex: the word owe, then
whitespace, a lazy nonempty description, whitespace, and an amount
anchored at the end of the (already stripped) command.  Returns the raw
description group and the amount characters. -/
def oweMatch (cl : List Char) : Option (List Char × List Char) :=
  if ("owe".toList).isPrefixOf cl then
    let r0 := cl.drop 3
    oweWsSearch (r0.takeWhile isSpaceC).length r0
  else none

/-- Fixed-width date match for the bill regex: four digits, dash, two
digits, dash, two digits; trailing characters are not consumed because
the regex has no end anchor. -/
def dateTake (l : List Char) : Option (List Char) :=
  match l with
  | y1 :: y2 :: y3 :: y4 :: '-' :: m1 :: m2 :: '-' :: d1 :: d2 :: _ =>
    if isDigitC y1 && isDigitC y2 && isDigitC y3 && isDigitC y4 &&
       isDigitC m1 && isDigitC m2 && isDigitC d1 && isDigitC d2 then
      some [y1, y2, y3, y4, '-', m1, m2, '-', d1, d2]
    else none
  | _ => none

/-- Tail check for the bill regex after a candidate description:
whitespace, an amount, whitespace, the word due, whitespace, a date. -/
def billTailCheck (rest : List Char) : Option (List Char × List Char) :=
  let v2 := rest.takeWhile isSpaceC
  if v2 = [] then none
  else
    match numTake (rest.drop v2.length) with
    | none => none
    | some (num, r1) =>
      let v3 := r1.takeWhile isSpaceC
      if v3 = [] then none
      else
        match r1.drop v3.length with
        | 'd' :: 'u' :: 'e' :: r2 =>
          let v4 := r2.takeWhile isSpaceC
          if v4 = [] then none
          else
            match dateTake (r2.drop v4.length) with
            | some date => some (num, date)
            | none => none
        | _ => none

/-- Lazy search for the shortest nonempty description group of the bill
regex. -/
def billDescSearch (acc : List Char) : List Char → Option (List Char × List Char × List Char)
  | [] => none
  | c :: rest =>
    if c = '\n' then none
    else
      match billTailCheck rest with
      | some (num, date) => some (acc ++ [c], num, date)
      | none => billDescSearch (acc ++ [c]) rest

/-- Backtracking over the greedy leading whitespace of the bill regex. -/
def billWsSearch : ℕ → List Char → Option (List Char × List Char × List Char)
  | 0, _ => none
  | k + 1, r0 =>
    match billDescSearch [] (r0.drop (k + 1)) with
    | some res => some res
    | none => billWsSearch k r0

/-- Match of re.match for the bill command regex: the word bill, then
whitespace, a lazy nonempty description, whitespace, an amount,
whitespace, the word due, whitespace and a date.  Returns the raw
description group, the amount characters and the date characters. -/
def billMatch (cl : List Char) : Option (List Char × List Char × List Char) :=
  if ("bill".toList).isPrefixOf cl then
    let r0 := cl.drop 4
    billWsSearch (r0.takeWhile isSpaceC).length r0
  else none

/-- One expense event, as appended by the spent command. -/
structure Expense where
  month : String
  category : String
  amount : ℚ
  date : String
deriving DecidableEq, Repr

/-- One debt or bill record, as appended by the owe and bill commands. -/
structure DebtBill where
  type : String
  description : String
  amount : ℚ
  due_date : Option String
  is_paid : Bool
  created_at : String
deriving DecidableEq, Repr

/-- Budgets: month name to (category name to amount), both dicts encoded
as insertion-ordered association lists. -/
abbrev Budgets := List (String × List (String × ℚ))

/-- The per-user ledger held in the expense cache. -/
structure Ledger where
  budgets : Budgets
  expenses : List Expense
  debts_bills : List DebtBill
deriving DecidableEq, Repr

/-- The empty ledger created by get_user_state for an unseen user. -/
def emptyLedger : Ledger := ⟨[], [], []⟩

/-- Wall-clock inputs of one call: the current month name and the
current ISO timestamp, both from datetime.utcnow(). -/
structure Env where
  nowMonth : String
  nowIso : String
deriving Repr

/-- One summary line: category, cumulative spend, budget amount and
percentage used. -/
structure SummaryLine where
  cat : String
  spentAmt : ℚ
  budgetAmt : ℚ
  pct : ℚ
deriving DecidableEq, Repr

/-- The response of one command, one constructor per return site of
expense_budget_monitor, carrying the data interpolated into the source
format string. -/
inductive Resp where
  | setBudgetFormatError
  | invalidAmount (tok : String)
  | budgetSet (month : String) (entries : List (String × ℚ))
  | editBudgetFormatError
  | noBudgetToEdit (category month : String)
  | budgetUpdated (category month : String) (amt : ℚ)
  | deleteBudgetFormatError
  | noBudgetToDelete (category month : String)
  | budgetDeleted (category month : String)
  | spentFormatError
  | noBudgetForSpend (category month : String)
  | exceededBudget (category : String) (over total : ℚ)
  | recordedSpending (amount : ℚ) (category : String) (total budget : ℚ)
  | oweFormatError
  | debtRecorded (desc : String) (amt : ℚ)
  | billFormatError
  | billRecorded (desc : String) (amt : ℚ) (due : String)
  | summaryReport (month : String) (lines : List SummaryLine) (upcoming : List DebtBill)
  | unknownCommand
deriving DecidableEq, Repr

/-- Dict lookup on an association list (Python: key in d, d[key]). -/
def alistLookup {α : Type} (k : String) : List (String × α) → Option α
  | [] => none
  | (k', v) :: t => if k' = k then some v else alistLookup k t

/-- Dict assignment d[k] = v: update in place when the key exists,
append otherwise, preserving insertion order. -/
def alistInsert {α : Type} (k : String) (v : α) : List (String × α) → List (String × α)
  | [] => [(k, v)]
  | (k', v') :: t => if k' = k then (k, v) :: t else (k', v') :: alistInsert k v t

/-- Dict deletion del d[k]. -/
def alistErase {α : Type} (k : String) (l : List (String × α)) : List (String × α) :=
  l.filter (fun p => decide (p.1 ≠ k))

/-- The mutation of one pair inside the set budget loop: create the
month dict when absent, then assign the category amount. -/
def budgetsInsert (month cat : String) (amt : ℚ) (b : Budgets) : Budgets :=
  match alistLookup month b with
  | none => alistInsert month [(cat, amt)] b
  | some mcats => alistInsert month (alistInsert cat amt mcats) b

/-- Cumulative spend of a (month, category) pair over an expense list,
the sum the spent and summary commands compute. -/
def spentTotal (expenses : List Expense) (month cat : String) : ℚ :=
  ((expenses.filter (fun e => decide (e.month = month) && decide (e.category = cat))).map
    Expense.amount).sum

/-- The pair loop of the set budget command.  Each parsed pair is
written to the ledger before the next one is examined, so an invalid
amount aborts with the pairs before it already applied. -/
def setBudgetPairs (month : String) (st : Ledger) : List (List Char) → Resp × Ledger
  | cat :: amtTok :: rest =>
    match pyFloat amtTok with
    | none => (Resp.invalidAmount (String.mk amtTok), st)
    | some amt =>
      setBudgetPairs month
        { st with budgets := budgetsInsert month (pyCapitalizeL cat) amt st.budgets } rest
  | _ => (Resp.budgetSet month ((alistLookup month st.budgets).getD []), st)

/-- The set budget command body. -/
def setBudgetCmd (st : Ledger) (cl : List Char) : Resp × Ledger :=
  let parts := pySplitL cl
  if parts.length < 5 ∨ (parts.length - 3) % 2 ≠ 0 then (Resp.setBudgetFormatError, st)
  else
    setBudgetPairs (pyCapitalizeL (parts.getD 2 [])) st (parts.drop 3)

/-- The edit budget command body. -/
def editBudgetCmd (st : Ledger) (cl : List Char) : Resp × Ledger :=
  let parts := pySplitL cl
  if parts.length ≠ 5 then (Resp.editBudgetFormatError, st)
  else
    let month := pyCapitalizeL (parts.getD 2 [])
    let category := pyCapitalizeL (parts.getD 3 [])
    match pyFloat (parts.getD 4 []) with
    | none => (Resp.invalidAmount (String.mk (parts.getD 4 [])), st)
    | some amt =>
      match alistLookup month st.budgets with
      | none => (Resp.noBudgetToEdit category month, st)
      | some mcats =>
        match alistLookup category mcats with
        | none => (Resp.noBudgetToEdit category month, st)
        | some _ =>
          (Resp.budgetUpdated category month amt,
           { st with budgets := alistInsert month (alistInsert category amt mcats) st.budgets })

/-- The delete budget command body. -/
def deleteBudgetCmd (st : Ledger) (cl : List Char) : Resp × Ledger :=
  let parts := pySplitL cl
  if parts.length ≠ 4 then (Resp.deleteBudgetFormatError, st)
  else
    let month := pyCapitalizeL (parts.getD 2 [])
    let category := pyCapitalizeL (parts.getD 3 [])
    match alistLookup month st.budgets with
    | none => (Resp.noBudgetToDelete category month, st)
    | some mcats =>
      match alistLookup category mcats with
      | none => (Resp.noBudgetToDelete category month, st)
      | some _ =>
        let mcats' := alistErase category mcats
        (Resp.budgetDeleted category month,
         { st with budgets :=
            if mcats' = [] then alistErase month st.budgets
            else alistInsert month mcats' st.budgets })

/-- The spent command body.  The month is always the current month from
the environment, never parsed from the command. -/
def spentCmd (env : Env) (st : Ledger) (cl : List Char) : Resp × Ledger :=
  match spentMatch cl with
  | none => (Resp.spentFormatError, st)
  | some (numTok, catRaw) =>
    let amount := (pyFloat numTok).getD 0
    let category := pyCapitalizeL (pyStripL catRaw)
    let month := env.nowMonth
    match alistLookup month st.budgets with
    | none => (Resp.noBudgetForSpend category month, st)
    | some mcats =>
      match alistLookup category mcats with
      | none => (Resp.noBudgetForSpend category month, st)
      | some budget_amt =>
        let expenses' := st.expenses ++ [⟨month, category, amount, env.nowIso⟩]
        let total_spent := spentTotal expenses' month category
        let st' := { st with expenses := expenses' }
        if total_spent > budget_amt then
          (Resp.exceededBudget category (total_spent - budget_amt) total_spent, st')
        else
          (Resp.recordedSpending amount category total_spent budget_amt, st')

/-- The owe command body. -/
def oweCmd (env : Env) (st : Ledger) (cl : List Char) : Resp × Ledger :=
  match oweMatch cl with
  | none => (Resp.oweFormatError, st)
  | some (descRaw, numTok) =>
    let desc := String.mk (pyStripL descRaw)
    let amt := (pyFloat numTok).getD 0
    (Resp.debtRecorded desc amt,
     { st with debts_bills :=
        st.debts_bills ++ [⟨"debt", desc, amt, none, false, env.nowIso⟩] })

/-- The bill command body. -/
def billCmd (env : Env) (st : Ledger) (cl : List Char) : Resp × Ledger :=
  match billMatch cl with
  | none => (Resp.billFormatError, st)
  | some (descRaw, numTok, date) =>
    let desc := String.mk (pyStripL descRaw)
    let amt := (pyFloat numTok).getD 0
    let due := String.mk date
    (Resp.billRecorded desc amt due,
     { st with debts_bills :=
        st.debts_bills ++ [⟨"bill", desc, amt, some due, false, env.nowIso⟩] })

/-- Truthiness of d.get of the due date field in the summary filter:
None and the empty string are falsy. -/
def dueTruthy (d : DebtBill) : Bool :=
  match d.due_date with
  | none => false
  | some s => decide (s ≠ "")

/-- The summary command body.  The per-category dict of spends the
source builds and then reads back with get(cat, 0.0) is embedded
directly as the per-category sum spentTotal. -/
def summaryCmd (env : Env) (st : Ledger) (cl : List Char) : Resp × Ledger :=
  let parts := pySplitL cl
  let month :=
    match parts with
    | _ :: m :: _ => pyCapitalizeL m
    | _ => env.nowMonth
  let budgets := (alistLookup month st.budgets).getD []
  let lines := budgets.map (fun p =>
    let sp := spentTotal st.expenses month p.1
    SummaryLine.mk p.1 sp p.2 (if p.2 = 0 then 0 else sp / p.2 * 100))
  (Resp.summaryReport month lines (st.debts_bills.filter dueTruthy), st)

/-- Dispatch over the lowered, stripped command: the first matching
string prefix wins, otherwise the unknown-command response. -/
def interpCore (env : Env) (st : Ledger) (cl : List Char) : Resp × Ledger :=
  if ("set budget".toList).isPrefixOf cl then setBudgetCmd st cl
  else if ("edit budget".toList).isPrefixOf cl then editBudgetCmd st cl
  else if ("delete budget".toList).isPrefixOf cl then deleteBudgetCmd st cl
  else if ("spent".toList).isPrefixOf cl then spentCmd env st cl
  else if ("owe".toList).isPrefixOf cl then oweCmd env st cl
  else if ("bill".toList).isPrefixOf cl then billCmd env st cl
  else if ("summary".toList).isPrefixOf cl then summaryCmd env st cl
  else (Resp.unknownCommand, st)

/-- The expense_budget_monitor tool for one user: strip and lower the
command, then dispatch.  The returned ledger is the (in-place mutated)
cache entry after the call. -/
def expense_budget_monitor (env : Env) (st : Ledger) (command : String) : Resp × Ledger :=
  interpCore env st (pyLowerL (pyStripL command.toList))

/-- Fold a command sequence over a ledger, each command with its own
wall-clock environment. -/
def runLedger : Ledger → List (Env × String) → Ledger
  | st, [] => st
  | st, (env, cmd) :: rest => runLedger (expense_budget_monitor env st cmd).2 rest

/-- A fixed environment for concrete runs: a call made in March. -/
def envMarch : Env := ⟨"March", "2025-03-15T10:00:00"⟩

/-- The seven command verbs tested, in dispatch order. -/
def anyVerb (cl : List Char) : Bool :=
  ("set budget".toList).isPrefixOf cl || ("edit budget".toList).isPrefixOf cl ||
  ("delete budget".toList).isPrefixOf cl || ("spent".toList).isPrefixOf cl ||
  ("owe".toList).isPrefixOf cl || ("bill".toList).isPrefixOf cl ||
  ("summary".toList).isPrefixOf cl

/-- Lookup of one (month, category) budget entry. -/
def budgetLookup (m c : String) (b : Budgets) : Option ℚ :=
  match alistLookup m b with
  | none => none
  | some mcats => alistLookup c mcats

/-- Flatten (category, amount) token pairs into the token list the set
budget loop consumes. -/
def flatPairs (g : List (List Char × List Char)) : List (List Char) :=
  g.foldr (fun p acc => p.1 :: p.2 :: acc) []

/-- Apply a list of parsed (category, amount) token pairs to the ledger
the way the set budget loop does. -/
def applyPairs (month : String) (st : Ledger) (g : List (List Char × List Char)) : Ledger :=
  g.foldl (fun s p =>
    { s with budgets :=
        budgetsInsert month (pyCapitalizeL p.1) ((pyFloat p.2).getD 0) s.budgets }) st

/-- A well-behaved free-text token: nonempty, no whitespace, fixed under
lower-casing. -/
def tokOk (t : List Char) : Prop :=
  t ≠ [] ∧ ∀ ch ∈ t, isSpaceC ch = false ∧ pyLowerChar ch = ch

/-- A spent command assembled from an amount token and a category token. -/
def mkSpentCmd (a c : List Char) : List Char :=
  "spent ".toList ++ a ++ " on ".toList ++ c

/-- A delete budget command assembled from month and category tokens. -/
def mkDeleteCmd (m c : List Char) : List Char :=
  "delete budget ".toList ++ m ++ ' ' :: c

/-- The cumulative total carried by a spent response, when there is one. -/
def reportedTotal : Resp → Option ℚ
  | Resp.exceededBudget _ _ t => some t
  | Resp.recordedSpending _ _ t _ => some t
  | _ => none

/-- Whether a response is the over-budget warning. -/
def isOverWarning : Resp → Bool
  | Resp.exceededBudget _ _ _ => true
  | _ => false

/-- Run a command list under one environment, keeping the last response
and the final ledger. -/
def runAll (env : Env) (st : Ledger) (cmds : List String) : Resp × Ledger :=
  cmds.foldl (fun p cmd => expense_budget_monitor env p.2 cmd) (Resp.unknownCommand, st)

/-- A ledger holding a single budget entry of 100 for Food in March. -/
def stMarchFood : Ledger := ⟨[("March", [("Food", 100)])], [], []⟩

/-- A ledger holding a zero budget for Food in March. -/
def stMarchZero : Ledger := ⟨[("March", [("Food", 0)])], [], []⟩

/-- A ledger holding budgets for Food and Travel in March. -/
def stMarchTwo : Ledger := ⟨[("March", [("Food", 100), ("Travel", 50)])], [], []⟩

/-- A ledger holding a budget of 5000 for Food in March. -/
def stMarch5000 : Ledger := ⟨[("March", [("Food", 5000)])], [], []⟩

/-! ### Character-level lemmas -/

/-- Char.ofNat round-trips through toNat for valid code points. -/
theorem charOfNat_toNat {n : ℕ} (h : n.isValidChar) : (Char.ofNat n).toNat = n := by
  simp [Char.ofNat, Char.toNat, h, Char.ofNatAux, UInt32.toNat, UInt32.ofNatCore]

/-- The code point of the lower-cased character. -/
theorem toNat_pyLowerChar (c : Char) :
    (pyLowerChar c).toNat = if 65 ≤ c.toNat ∧ c.toNat ≤ 90 then c.toNat + 32 else c.toNat := by
  unfold pyLowerChar
  split
  · next h => exact charOfNat_toNat (Or.inl (by omega))
  · rfl

/-- Lower-casing is the identity on characters that are not ASCII upper
case letters. -/
theorem pyLowerChar_eq_self {c : Char} (h : ¬(65 ≤ c.toNat ∧ c.toNat ≤ 90)) :
    pyLowerChar c = c := by
  unfold pyLowerChar
  exact if_neg h

/-- Lower-casing a character twice equals lower-casing it once. -/
theorem pyLowerChar_idem (c : Char) : pyLowerChar (pyLowerChar c) = pyLowerChar c := by
  apply pyLowerChar_eq_self
  rw [toNat_pyLowerChar]
  split <;> omega

/-- Lower-casing does not change whether a character is whitespace. -/
theorem isSpaceC_pyLowerChar (c : Char) : isSpaceC (pyLowerChar c) = isSpaceC c := by
  simp only [isSpaceC, toNat_pyLowerChar]
  split
  · next h => simp only [decide_eq_decide]; omega
  · rfl

/-- A whitespace character has one of the six ASCII whitespace codes. -/
theorem isSpaceC_iff {c : Char} : isSpaceC c = true ↔
    (c.toNat = 32 ∨ c.toNat = 9 ∨ c.toNat = 10 ∨ c.toNat = 13 ∨ c.toNat = 11 ∨ c.toNat = 12) := by
  simp [isSpaceC]

/-- A digit has code 48 to 57. -/
theorem isDigitC_iff {c : Char} : isDigitC c = true ↔ (48 ≤ c.toNat ∧ c.toNat ≤ 57) := by
  simp [isDigitC]

/-- Digits are not whitespace. -/
theorem isDigitC_not_space {c : Char} (h : isDigitC c = true) : isSpaceC c = false := by
  rw [isDigitC_iff] at h
  rw [Bool.eq_false_iff]
  intro hs
  rw [isSpaceC_iff] at hs
  omega

/-- Non-whitespace characters are not the newline. -/
theorem ne_newline_of_not_space {c : Char} (h : isSpaceC c = false) : c ≠ '\n' := by
  intro he
  subst he
  simp [isSpaceC] at h

/-- Digits are not the minus sign. -/
theorem isDigitC_ne_minus {c : Char} (h : isDigitC c = true) : c ≠ '-' := by
  intro he
  subst he
  simp [isDigitC] at h

/-- Lower-casing is the identity on digits, the dot and whitespace. -/
theorem pyLowerChar_eq_self_of_lt {c : Char} (h : c.toNat < 65) : pyLowerChar c = c :=
  pyLowerChar_eq_self (by omega)

/-! ### Association list lemmas -/

/-- Assigning a key then looking it up yields the assigned value. -/
theorem alistLookup_insert_self {α : Type} (k : String) (v : α) (l : List (String × α)) :
    alistLookup k (alistInsert k v l) = some v := by
  induction l with
  | nil => simp [alistInsert, alistLookup]
  | cons p t ih =>
    by_cases h : p.1 = k
    · simp [alistInsert, alistLookup, h]
    · simp [alistInsert, alistLookup, h, ih]

/-- Assigning one key does not change the lookup of another. -/
theorem alistLookup_insert_ne {α : Type} {k k' : String} (v : α) (l : List (String × α))
    (h : k' ≠ k) : alistLookup k' (alistInsert k v l) = alistLookup k' l := by
  induction l with
  | nil =>
    show alistLookup k' [(k, v)] = none
    rw [show alistLookup k' [(k, v)] = if k = k' then some v else alistLookup k' [] from rfl]
    rw [if_neg (Ne.symm h)]
    rfl
  | cons p t ih =>
    by_cases hp : p.1 = k
    · rw [show alistInsert k v (p :: t) = if p.1 = k then (k, v) :: t else
          p :: alistInsert k v t from rfl, if_pos hp]
      rw [show alistLookup k' ((k, v) :: t) = if k = k' then some v else
          alistLookup k' t from rfl, if_neg (Ne.symm h)]
      rw [show alistLookup k' (p :: t) = if p.1 = k' then some p.2 else
          alistLookup k' t from rfl, if_neg (hp ▸ Ne.symm h)]
    · rw [show alistInsert k v (p :: t) = if p.1 = k then (k, v) :: t else
          p :: alistInsert k v t from rfl, if_neg hp]
      rw [show alistLookup k' (p :: alistInsert k v t) = if p.1 = k' then some p.2 else
          alistLookup k' (alistInsert k v t) from rfl]
      rw [show alistLookup k' (p :: t) = if p.1 = k' then some p.2 else
          alistLookup k' t from rfl, ih]

/-- Deleting a key removes it from lookup. -/
theorem alistLookup_erase_self {α : Type} (k : String) (l : List (String × α)) :
    alistLookup k (alistErase k l) = none := by
  induction l with
  | nil => rfl
  | cons p t ih =>
    by_cases h : p.1 = k
    · simpa [alistErase, h] using ih
    · simpa [alistErase, alistLookup, h] using ih

/-- Deleting one key does not change the lookup of another. -/
theorem alistLookup_erase_ne {α : Type} {k k' : String} (l : List (String × α))
    (h : k' ≠ k) : alistLookup k' (alistErase k l) = alistLookup k' l := by
  induction l with
  | nil => rfl
  | cons p t ih =>
    by_cases hp : p.1 = k
    · have hne : p.1 ≠ k' := hp ▸ Ne.symm h
      rw [show alistErase k (p :: t) = if decide (p.1 ≠ k) = true then
          p :: alistErase k t else alistErase k t by simp [alistErase, List.filter_cons]]
      rw [if_neg (by simp [hp]), ih]
      rw [show alistLookup k' (p :: t) = if p.1 = k' then some p.2 else
          alistLookup k' t from rfl, if_neg hne]
    · rw [show alistErase k (p :: t) = if decide (p.1 ≠ k) = true then
          p :: alistErase k t else alistErase k t by simp [alistErase, List.filter_cons]]
      rw [if_pos (by simp [hp])]
      rw [show alistLookup k' (p :: alistErase k t) = if p.1 = k' then some p.2 else
          alistLookup k' (alistErase k t) from rfl, ih]
      rw [show alistLookup k' (p :: t) = if p.1 = k' then some p.2 else
          alistLookup k' t from rfl]

/-! ### takeWhile and dropWhile lemmas -/

/-- takeWhile of a list all of whose elements satisfy the predicate. -/
theorem takeWhile_all {α : Type} {p : α → Bool} {l : List α} (h : ∀ a ∈ l, p a = true) :
    l.takeWhile p = l := by
  induction l with
  | nil => rfl
  | cons x t ih =>
    rw [List.takeWhile_cons, if_pos (h x (by simp))]
    rw [ih (fun a ha => h a (by simp [ha]))]

/-- dropWhile of a list all of whose elements satisfy the predicate. -/
theorem dropWhile_all {α : Type} {p : α → Bool} {l : List α} (h : ∀ a ∈ l, p a = true) :
    l.dropWhile p = [] := by
  induction l with
  | nil => rfl
  | cons x t ih =>
    rw [List.dropWhile_cons, if_pos (h x (by simp))]
    exact ih (fun a ha => h a (by simp [ha]))

/-- takeWhile over an append stops at the first failing element. -/
theorem takeWhile_append_cons {α : Type} {p : α → Bool} {xs : List α} (y : α) (ys : List α)
    (h : ∀ a ∈ xs, p a = true) (hy : p y = false) :
    (xs ++ y :: ys).takeWhile p = xs := by
  induction xs with
  | nil => simp [List.takeWhile_cons, hy]
  | cons x t ih =>
    rw [List.cons_append, List.takeWhile_cons, if_pos (h x (by simp))]
    rw [ih (fun a ha => h a (by simp [ha]))]

/-- dropWhile over an append drops exactly the passing prefix. -/
theorem dropWhile_append_cons {α : Type} {p : α → Bool} {xs : List α} (y : α) (ys : List α)
    (h : ∀ a ∈ xs, p a = true) (hy : p y = false) :
    (xs ++ y :: ys).dropWhile p = y :: ys := by
  induction xs with
  | nil => simp [List.dropWhile_cons, hy]
  | cons x t ih =>
    rw [List.cons_append, List.dropWhile_cons, if_pos (h x (by simp))]
    exact ih (fun a ha => h a (by simp [ha]))

/-- The head of a dropWhile result fails the predicate. -/
theorem dropWhile_head_not {α : Type} {p : α → Bool} {l : List α} {c : α}
    (h : (l.dropWhile p).head? = some c) : p c = false := by
  induction l with
  | nil => simp [List.dropWhile] at h
  | cons x t ih =>
    rw [List.dropWhile_cons] at h
    by_cases hx : p x = true
    · exact ih (by rwa [if_pos hx] at h)
    · rw [if_neg hx, List.head?_cons, Option.some_inj] at h
      rw [← h]
      exact Bool.eq_false_iff.mpr hx

/-- A nonempty dropWhile result keeps the last element of the list. -/
theorem dropWhile_getLast? {α : Type} {p : α → Bool} {l : List α}
    (h : l.dropWhile p ≠ []) : (l.dropWhile p).getLast? = l.getLast? := by
  conv_rhs => rw [← List.takeWhile_append_dropWhile p l]
  rw [List.getLast?_append]
  have : (l.dropWhile p).getLast?.isSome = true := List.getLast?_isSome.mpr h
  cases hg : (l.dropWhile p).getLast? with
  | none => rw [hg] at this; simp at this
  | some a => rfl

/-! ### strip and lower lemmas -/

/-- Lower-casing twice equals lower-casing once. -/
theorem pyLowerL_idem (l : List Char) : pyLowerL (pyLowerL l) = pyLowerL l := by
  unfold pyLowerL
  rw [List.map_map]
  exact List.map_congr_left (fun c _ => pyLowerChar_idem c)

/-- Stripping commutes with lower-casing. -/
theorem pyStripL_pyLowerL (l : List Char) : pyStripL (pyLowerL l) = pyLowerL (pyStripL l) := by
  unfold pyStripL pyLowerL
  have hp : (isSpaceC ∘ pyLowerChar) = isSpaceC := funext (fun c => isSpaceC_pyLowerChar c)
  rw [List.dropWhile_map, hp, ← List.map_reverse, List.dropWhile_map, hp, ← List.map_reverse]

/-- A list with non-whitespace first and last characters strips to itself. -/
theorem pyStripL_eq_self {l : List Char}
    (h1 : ∀ c, l.head? = some c → isSpaceC c = false)
    (h2 : ∀ c, l.getLast? = some c → isSpaceC c = false) : pyStripL l = l := by
  unfold pyStripL
  have hd : l.dropWhile isSpaceC = l := by
    cases l with
    | nil => rfl
    | cons x t =>
      rw [List.dropWhile_cons, if_neg (by simp [h1 x rfl])]
  rw [hd]
  have hd2 : l.reverse.dropWhile isSpaceC = l.reverse := by
    cases hr : l.reverse with
    | nil => rfl
    | cons x t =>
      rw [List.dropWhile_cons, if_neg ?_]
      have : l.reverse.head? = some x := by rw [hr]; rfl
      rw [List.head?_reverse] at this
      simp [h2 x this]
  rw [hd2, List.reverse_reverse]

/-- The first character of a stripped list is not whitespace. -/
theorem pyStripL_head {l : List Char} {c : Char} (h : (pyStripL l).head? = some c) :
    isSpaceC c = false := by
  unfold pyStripL at h
  rw [List.head?_reverse] at h
  have hne : (l.dropWhile isSpaceC).reverse.dropWhile isSpaceC ≠ [] := by
    intro he
    rw [he] at h
    simp at h
  rw [dropWhile_getLast? hne, List.getLast?_reverse] at h
  exact dropWhile_head_not h

/-- The last character of a stripped list is not whitespace. -/
theorem pyStripL_getLast {l : List Char} {c : Char} (h : (pyStripL l).getLast? = some c) :
    isSpaceC c = false := by
  unfold pyStripL at h
  rw [List.getLast?_reverse] at h
  exact dropWhile_head_not h

/-- Stripping twice equals stripping once. -/
theorem pyStripL_idem (l : List Char) : pyStripL (pyStripL l) = pyStripL l :=
  pyStripL_eq_self (fun _ h => pyStripL_head h) (fun _ h => pyStripL_getLast h)

/-- The normalization the interpreter applies is idempotent: lowering and
stripping an already lowered and stripped command changes nothing. -/
theorem lowerStrip_idem (l : List Char) :
    pyLowerL (pyStripL (pyLowerL (pyStripL l))) = pyLowerL (pyStripL l) := by
  rw [pyStripL_pyLowerL, pyStripL_idem, pyLowerL_idem]

/-! ### split lemmas -/

/-- The split loop emits the accumulated token at a space. -/
theorem pySplitAux_token (m : List Char) (rest : List Char) : ∀ acc,
    (∀ c ∈ m, isSpaceC c = false) → (m = [] → acc ≠ []) →
    pySplitAux acc (m ++ ' ' :: rest) = (acc.reverse ++ m) :: pySplitAux [] rest := by
  induction m with
  | nil =>
    intro acc _ hacc
    show pySplitAux acc (' ' :: rest) = _
    rw [show pySplitAux acc (' ' :: rest) =
        if isSpaceC ' ' then
          (if acc = [] then pySplitAux [] rest else acc.reverse :: pySplitAux [] rest)
        else pySplitAux (' ' :: acc) rest from rfl]
    rw [if_pos (by decide), if_neg (hacc rfl)]
    simp
  | cons x t ih =>
    intro acc hm _
    rw [List.cons_append]
    rw [show pySplitAux acc (x :: (t ++ ' ' :: rest)) =
        if isSpaceC x then
          (if acc = [] then pySplitAux [] (t ++ ' ' :: rest)
           else acc.reverse :: pySplitAux [] (t ++ ' ' :: rest))
        else pySplitAux (x :: acc) (t ++ ' ' :: rest) from rfl]
    rw [if_neg (by simp [hm x (by simp)])]
    rw [ih (x :: acc) (fun c hc => hm c (by simp [hc])) (fun _ => by simp)]
    simp

/-- The split loop at the end of input emits the accumulated token. -/
theorem pySplitAux_last (m : List Char) : ∀ acc,
    (∀ c ∈ m, isSpaceC c = false) → (m = [] → acc ≠ []) →
    pySplitAux acc m = [acc.reverse ++ m] := by
  induction m with
  | nil =>
    intro acc _ hacc
    show (if acc = [] then [] else [acc.reverse]) = _
    rw [if_neg (hacc rfl)]
    simp
  | cons x t ih =>
    intro acc hm _
    rw [show pySplitAux acc (x :: t) =
        if isSpaceC x then
          (if acc = [] then pySplitAux [] t else acc.reverse :: pySplitAux [] t)
        else pySplitAux (x :: acc) t from rfl]
    rw [if_neg (by simp [hm x (by simp)])]
    rw [ih (x :: acc) (fun c hc => hm c (by simp [hc])) (fun _ => by simp)]
    simp

/-! ### numeric lemmas -/

/-- The digit fold is nonnegative from a nonnegative accumulator. -/
theorem digitsQ_foldl_nonneg (l : List Char) : ∀ a : ℚ, 0 ≤ a →
    0 ≤ l.foldl (fun a c => a * 10 + ((c.toNat - 48 : ℕ) : ℚ)) a := by
  induction l with
  | nil => intro a ha; exact ha
  | cons x t ih =>
    intro a ha
    exact ih _ (by positivity)

/-- Digit lists denote nonnegative rationals. -/
theorem digitsQ_nonneg (l : List Char) : 0 ≤ digitsQ l :=
  digitsQ_foldl_nonneg l 0 le_rfl

/-- The mantissa value is nonnegative. -/
theorem mantVal_nonneg (ip : List Char) (fp : Option (List Char)) : 0 ≤ mantVal ip fp := by
  unfold mantVal
  have h1 := digitsQ_nonneg (ip.filter isDigitC)
  have h2 := digitsQ_nonneg ((fp.getD []).filter isDigitC)
  positivity

/-- The exponent factor is nonnegative when defined. -/
theorem expFactor_nonneg {ex : List Char} {f : ℚ} (h : expFactor ex = some f) : 0 ≤ f := by
  simp only [expFactor] at h
  split at h <;> split at h <;>
    first
    | · rw [Option.some_inj] at h
        rw [← h]
        exact le_of_lt (zpow_pos (by norm_num) _)
    | · exact absurd h (by simp)

/-- float() with a nonnegative sign yields a nonnegative value. -/
theorem pyFloatCore_nonneg {sgn : ℚ} {l' : List Char} {q : ℚ} (hs : 0 ≤ sgn)
    (h : pyFloatCore sgn l' = some q) : 0 ≤ q := by
  simp only [pyFloatCore] at h
  split at h
  · split at h
    · rw [Option.some_inj] at h
      rw [← h]
      exact mul_nonneg hs (mantVal_nonneg _ _)
    · next ex heq =>
      split at h
      · next f hf =>
        rw [Option.some_inj] at h
        rw [← h]
        exact mul_nonneg (mul_nonneg hs (mantVal_nonneg _ _)) (expFactor_nonneg hf)
      · exact absurd h (by simp)
  · exact absurd h (by simp)

/-- float() of a token that does not start with a minus sign is
nonnegative. -/
theorem pyFloat_nonneg {l : List Char} {q : ℚ} (hm : l.head? ≠ some '-')
    (h : pyFloat l = some q) : 0 ≤ q := by
  unfold pyFloat at h
  rw [if_neg hm] at h
  split at h
  · exact pyFloatCore_nonneg (by norm_num) h
  · exact pyFloatCore_nonneg (by norm_num) h

/-! ### amount shape lemmas -/

/-- The head of a takeWhile result satisfies the predicate. -/
theorem takeWhile_head {α : Type} {p : α → Bool} {l : List α} {c : α} {cs : List α}
    (h : l.takeWhile p = c :: cs) : p c = true :=
  List.mem_takeWhile_imp (h ▸ List.mem_cons_self c cs)

/-- An amount matched by numTake starts with a digit. -/
theorem numTake_head {l n r : List Char} (h : numTake l = some (n, r)) :
    ∃ c cs, n = c :: cs ∧ isDigitC c = true := by
  simp only [numTake] at h
  split at h
  · exact absurd h (by simp)
  · next hds =>
    obtain ⟨c, cs, hcs⟩ := List.exists_cons_of_ne_nil hds
    have hc : isDigitC c = true := takeWhile_head hcs
    split at h <;> rw [Option.some_inj, Prod.mk.injEq] at h
    · exact ⟨c, cs ++ '.' :: _, by rw [← h.1, hcs, List.cons_append], hc⟩
    · exact ⟨c, cs, by rw [← h.1, hcs], hc⟩

/-- An amount in the exact regex language starts with a digit. -/
theorem numExact_head {l : List Char} (h : numExact l = true) :
    ∃ c cs, l = c :: cs ∧ isDigitC c = true := by
  simp only [numExact, Bool.and_eq_true, decide_eq_true_eq] at h
  obtain ⟨h1, _⟩ := h
  cases hl : l with
  | nil => rw [hl] at h1; exact absurd rfl h1
  | cons c cs =>
    refine ⟨c, cs, rfl, ?_⟩
    rw [hl, List.takeWhile_cons] at h1
    by_cases hc : isDigitC c = true
    · exact hc
    · rw [if_neg hc] at h1
      exact absurd rfl h1

/-- float() of an amount that starts with a digit is nonnegative
(defaulting to zero when parsing fails). -/
theorem pyFloat_getD_nonneg {c : Char} {cs : List Char} (h : isDigitC c = true) :
    0 ≤ (pyFloat (c :: cs)).getD 0 := by
  cases hf : pyFloat (c :: cs) with
  | none => simp
  | some q =>
    have hne : (c :: cs).head? ≠ some '-' := by
      rw [List.head?_cons]
      intro hc
      exact isDigitC_ne_minus h (Option.some_inj.mp hc)
    simpa using pyFloat_nonneg hne hf

/-! ### spentTotal lemmas -/

/-- Cumulative spend distributes over list append. -/
theorem spentTotal_append (xs ys : List Expense) (m c : String) :
    spentTotal (xs ++ ys) m c = spentTotal xs m c + spentTotal ys m c := by
  unfold spentTotal
  rw [List.filter_append, List.map_append, List.sum_append]

/-- Appending one expense for the same month and category adds its
amount to the cumulative spend. -/
theorem spentTotal_snoc (xs : List Expense) (m c : String) (a : ℚ) (d : String) :
    spentTotal (xs ++ [⟨m, c, a, d⟩]) m c = spentTotal xs m c + a := by
  rw [spentTotal_append]
  simp [spentTotal, List.filter]

/-! ### per-command frame lemmas -/

/-- The set budget pair loop only ever touches the budgets field, and
never answers with the unknown-command response. -/
theorem setBudgetPairs_frame (month : String) :
    ∀ (st : Ledger) (toks : List (List Char)),
      ((setBudgetPairs month st toks).2.expenses = st.expenses ∧
       (setBudgetPairs month st toks).2.debts_bills = st.debts_bills) ∧
      (setBudgetPairs month st toks).1 ≠ Resp.unknownCommand
  | st, [] => by simp [setBudgetPairs]
  | st, [x] => by simp [setBudgetPairs]
  | st, cat :: amtTok :: rest => by
    cases hf : pyFloat amtTok with
    | none => simp [setBudgetPairs, hf]
    | some amt =>
      simpa [setBudgetPairs, hf] using setBudgetPairs_frame month
        { st with budgets := budgetsInsert month (pyCapitalizeL cat) amt st.budgets } rest

/-- The set budget command only touches budgets and never answers
unknown. -/
theorem setBudgetCmd_frame (st : Ledger) (cl : List Char) :
    ((setBudgetCmd st cl).2.expenses = st.expenses ∧
     (setBudgetCmd st cl).2.debts_bills = st.debts_bills) ∧
    (setBudgetCmd st cl).1 ≠ Resp.unknownCommand := by
  simp only [setBudgetCmd]
  split
  · simp
  · exact setBudgetPairs_frame _ st _

/-- The edit budget command only touches budgets and never answers
unknown. -/
theorem editBudgetCmd_frame (st : Ledger) (cl : List Char) :
    ((editBudgetCmd st cl).2.expenses = st.expenses ∧
     (editBudgetCmd st cl).2.debts_bills = st.debts_bills) ∧
    (editBudgetCmd st cl).1 ≠ Resp.unknownCommand := by
  simp only [editBudgetCmd]
  split
  · simp
  · split <;> [simp; skip]
    split <;> [simp; skip]
    split <;> simp

/-- The delete budget command only touches budgets and never answers
unknown. -/
theorem deleteBudgetCmd_frame (st : Ledger) (cl : List Char) :
    ((deleteBudgetCmd st cl).2.expenses = st.expenses ∧
     (deleteBudgetCmd st cl).2.debts_bills = st.debts_bills) ∧
    (deleteBudgetCmd st cl).1 ≠ Resp.unknownCommand := by
  simp only [deleteBudgetCmd]
  split
  · simp
  · split <;> [simp; skip]
    split <;> simp

/-- The summary command returns the ledger unchanged with a summary
report. -/
theorem summaryCmd_frame (env : Env) (st : Ledger) (cl : List Char) :
    (summaryCmd env st cl).2 = st ∧
    ∃ m li up, (summaryCmd env st cl).1 = Resp.summaryReport m li up :=
  ⟨rfl, _, _, _, rfl⟩

/-- The amount group of a spent match starts with a digit. -/
theorem spentMatch_num {cl n cr : List Char} (h : spentMatch cl = some (n, cr)) :
    ∃ c cs, n = c :: cs ∧ isDigitC c = true := by
  simp only [spentMatch] at h
  split at h
  · split at h
    · exact absurd h (by simp)
    · split at h
      · exact absurd h (by simp)
      · next num r1 heq =>
        split at h
        · exact absurd h (by simp)
        · split at h
          · split at h
            · exact absurd h (by simp)
            · split at h
              · exact absurd h (by simp)
              · split at h
                · exact absurd h (by simp)
                · rw [Option.some_inj, Prod.mk.injEq] at h
                  obtain ⟨c, cs, hc⟩ := numTake_head heq
                  exact ⟨c, cs, h.1 ▸ hc.1, hc.2⟩
          · exact absurd h (by simp)
  · exact absurd h (by simp)

/-- The amount of an owe tail check is in the exact amount language. -/
theorem oweTailCheck_num {rest n : List Char} (h : oweTailCheck rest = some n) :
    numExact n = true := by
  simp only [oweTailCheck] at h
  split at h
  · exact absurd h (by simp)
  · split at h
    · next hn =>
      rw [Option.some_inj] at h
      exact h ▸ hn
    · exact absurd h (by simp)

/-- The amount found by the owe description search is in the exact
amount language. -/
theorem oweDescSearch_num : ∀ (acc l : List Char) {d n : List Char},
    oweDescSearch acc l = some (d, n) → numExact n = true
  | _, [], _, _, h => absurd h (by simp [oweDescSearch])
  | acc, c :: rest, d, n, h => by
    simp only [oweDescSearch] at h
    split at h
    · exact absurd h (by simp)
    · split at h
      · next m hm =>
        rw [Option.some_inj, Prod.mk.injEq] at h
        exact h.2 ▸ oweTailCheck_num hm
      · exact oweDescSearch_num (acc ++ [c]) rest h

/-- The amount found by the owe whitespace search is in the exact
amount language. -/
theorem oweWsSearch_num : ∀ (k : ℕ) (r0 : List Char) {d n : List Char},
    oweWsSearch k r0 = some (d, n) → numExact n = true
  | 0, _, _, _, h => absurd h (by simp [oweWsSearch])
  | k + 1, r0, d, n, h => by
    simp only [oweWsSearch] at h
    split at h
    · next hm =>
      rw [Option.some_inj] at h
      rw [h] at hm
      exact oweDescSearch_num [] (r0.drop (k + 1)) hm
    · exact oweWsSearch_num k r0 h

/-- The amount group of an owe match is in the exact amount language. -/
theorem oweMatch_num {cl d n : List Char} (h : oweMatch cl = some (d, n)) :
    numExact n = true := by
  simp only [oweMatch] at h
  split at h
  · exact oweWsSearch_num _ _ h
  · exact absurd h (by simp)

/-- The amount group of a bill tail check starts with a digit. -/
theorem billTailCheck_num {rest n dt : List Char} (h : billTailCheck rest = some (n, dt)) :
    ∃ c cs, n = c :: cs ∧ isDigitC c = true := by
  simp only [billTailCheck] at h
  split at h
  · exact absurd h (by simp)
  · split at h
    · exact absurd h (by simp)
    · next num r1 heq =>
      split at h
      · exact absurd h (by simp)
      · split at h
        · split at h
          · exact absurd h (by simp)
          · split at h
            · next dd hd =>
              rw [Option.some_inj, Prod.mk.injEq] at h
              obtain ⟨c, cs, hc⟩ := numTake_head heq
              exact ⟨c, cs, h.1 ▸ hc.1, hc.2⟩
            · exact absurd h (by simp)
        · exact absurd h (by simp)

/-- The amount found by the bill description search starts with a digit. -/
theorem billDescSearch_num : ∀ (acc l : List Char) {d n dt : List Char},
    billDescSearch acc l = some (d, n, dt) → ∃ c cs, n = c :: cs ∧ isDigitC c = true
  | _, [], _, _, _, h => absurd h (by simp [billDescSearch])
  | acc, c :: rest, d, n, dt, h => by
    simp only [billDescSearch] at h
    split at h
    · exact absurd h (by simp)
    · split at h
      · next hp =>
        rw [Option.some_inj] at h
        simp only [Prod.mk.injEq] at h
        exact h.2.1 ▸ billTailCheck_num hp
      · exact billDescSearch_num (acc ++ [c]) rest h

/-- The amount found by the bill whitespace search starts with a digit. -/
theorem billWsSearch_num : ∀ (k : ℕ) (r0 : List Char) {d n dt : List Char},
    billWsSearch k r0 = some (d, n, dt) → ∃ c cs, n = c :: cs ∧ isDigitC c = true
  | 0, _, _, _, _, h => absurd h (by simp [billWsSearch])
  | k + 1, r0, d, n, dt, h => by
    simp only [billWsSearch] at h
    split at h
    · next hm =>
      rw [Option.some_inj] at h
      subst h
      exact billDescSearch_num [] (r0.drop (k + 1)) hm
    · exact billWsSearch_num k r0 h

/-- The amount group of a bill match starts with a digit. -/
theorem billMatch_num {cl d n dt : List Char} (h : billMatch cl = some (d, n, dt)) :
    ∃ c cs, n = c :: cs ∧ isDigitC c = true := by
  simp only [billMatch] at h
  split at h
  · exact billWsSearch_num _ _ h
  · exact absurd h (by simp)

/-- The spent command leaves debts untouched, only appends nonnegative
expenses, and never answers unknown. -/
theorem spentCmd_frame (env : Env) (st : Ledger) (cl : List Char) :
    ((spentCmd env st cl).2.debts_bills = st.debts_bills ∧
     ∀ e ∈ (spentCmd env st cl).2.expenses, e ∈ st.expenses ∨ 0 ≤ e.amount) ∧
    (spentCmd env st cl).1 ≠ Resp.unknownCommand := by
  simp only [spentCmd]
  split
  · exact ⟨⟨rfl, fun e he => Or.inl he⟩, by simp⟩
  · next numTok catRaw hm =>
    have hnn : 0 ≤ (pyFloat numTok).getD 0 := by
      obtain ⟨c, cs, hceq, hc⟩ := spentMatch_num hm
      rw [hceq]
      exact pyFloat_getD_nonneg hc
    split
    · exact ⟨⟨rfl, fun e he => Or.inl he⟩, by simp⟩
    · split
      · exact ⟨⟨rfl, fun e he => Or.inl he⟩, by simp⟩
      · split <;>
        · refine ⟨⟨rfl, fun e he => ?_⟩, by simp⟩
          rw [List.mem_append] at he
          rcases he with he | he
          · exact Or.inl he
          · rw [List.mem_singleton] at he
            subst he
            exact Or.inr hnn

/-- The owe command leaves budgets and expenses untouched, only appends
unpaid nonnegative debts, and never answers unknown. -/
theorem oweCmd_frame (env : Env) (st : Ledger) (cl : List Char) :
    ((oweCmd env st cl).2.budgets = st.budgets ∧
     (oweCmd env st cl).2.expenses = st.expenses ∧
     ∀ d ∈ (oweCmd env st cl).2.debts_bills,
       d ∈ st.debts_bills ∨ (d.is_paid = false ∧ 0 ≤ d.amount)) ∧
    (oweCmd env st cl).1 ≠ Resp.unknownCommand := by
  simp only [oweCmd]
  split
  · exact ⟨⟨rfl, rfl, fun d hd => Or.inl hd⟩, by simp⟩
  · next descRaw numTok hm =>
    have hnn : 0 ≤ (pyFloat numTok).getD 0 := by
      obtain ⟨c, cs, hceq, hc⟩ := numExact_head (oweMatch_num hm)
      rw [hceq]
      exact pyFloat_getD_nonneg hc
    refine ⟨⟨rfl, rfl, fun d hd => ?_⟩, by simp⟩
    rw [List.mem_append] at hd
    rcases hd with hd | hd
    · exact Or.inl hd
    · rw [List.mem_singleton] at hd
      subst hd
      exact Or.inr ⟨rfl, hnn⟩

/-- The bill command leaves budgets and expenses untouched, only appends
unpaid nonnegative bills, and never answers unknown. -/
theorem billCmd_frame (env : Env) (st : Ledger) (cl : List Char) :
    ((billCmd env st cl).2.budgets = st.budgets ∧
     (billCmd env st cl).2.expenses = st.expenses ∧
     ∀ d ∈ (billCmd env st cl).2.debts_bills,
       d ∈ st.debts_bills ∨ (d.is_paid = false ∧ 0 ≤ d.amount)) ∧
    (billCmd env st cl).1 ≠ Resp.unknownCommand := by
  simp only [billCmd]
  split
  · exact ⟨⟨rfl, rfl, fun d hd => Or.inl hd⟩, by simp⟩
  · next descRaw numTok date hm =>
    have hnn : 0 ≤ (pyFloat numTok).getD 0 := by
      obtain ⟨c, cs, hceq, hc⟩ := billMatch_num hm
      rw [hceq]
      exact pyFloat_getD_nonneg hc
    refine ⟨⟨rfl, rfl, fun d hd => ?_⟩, by simp⟩
    rw [List.mem_append] at hd
    rcases hd with hd | hd
    · exact Or.inl hd
    · rw [List.mem_singleton] at hd
      subst hd
      exact Or.inr ⟨rfl, hnn⟩

/-- Any single command only appends nonnegative expenses and unpaid
nonnegative debts to the ledger it is given. -/
theorem interpCore_sub (env : Env) (st : Ledger) (cl : List Char) :
    (∀ e ∈ (interpCore env st cl).2.expenses, e ∈ st.expenses ∨ 0 ≤ e.amount) ∧
    (∀ d ∈ (interpCore env st cl).2.debts_bills,
      d ∈ st.debts_bills ∨ (d.is_paid = false ∧ 0 ≤ d.amount)) := by
  unfold interpCore
  split_ifs with h1 h2 h3 h4 h5 h6 h7
  · obtain ⟨⟨he, hd⟩, _⟩ := setBudgetCmd_frame st cl
    rw [he, hd]
    exact ⟨fun e hee => Or.inl hee, fun d hdd => Or.inl hdd⟩
  · obtain ⟨⟨he, hd⟩, _⟩ := editBudgetCmd_frame st cl
    rw [he, hd]
    exact ⟨fun e hee => Or.inl hee, fun d hdd => Or.inl hdd⟩
  · obtain ⟨⟨he, hd⟩, _⟩ := deleteBudgetCmd_frame st cl
    rw [he, hd]
    exact ⟨fun e hee => Or.inl hee, fun d hdd => Or.inl hdd⟩
  · obtain ⟨⟨hd, he⟩, _⟩ := spentCmd_frame env st cl
    rw [hd]
    exact ⟨he, fun d hdd => Or.inl hdd⟩
  · obtain ⟨⟨_, he, hd⟩, _⟩ := oweCmd_frame env st cl
    rw [he]
    exact ⟨fun e hee => Or.inl hee, hd⟩
  · obtain ⟨⟨_, he, hd⟩, _⟩ := billCmd_frame env st cl
    rw [he]
    exact ⟨fun e hee => Or.inl hee, hd⟩
  · obtain ⟨hs, _⟩ := summaryCmd_frame env st cl
    rw [hs]
    exact ⟨fun e hee => Or.inl hee, fun d hdd => Or.inl hdd⟩
  · exact ⟨fun e hee => Or.inl hee, fun d hdd => Or.inl hdd⟩

/-- A command whose lowered stripped text starts with any of the seven
verbs is dispatched to that verb and never answered unknown. -/
theorem interpCore_not_unknown (env : Env) (st : Ledger) (cl : List Char)
    (h : anyVerb cl = true) : (interpCore env st cl).1 ≠ Resp.unknownCommand := by
  unfold interpCore
  split_ifs with h1 h2 h3 h4 h5 h6 h7
  · exact (setBudgetCmd_frame st cl).2
  · exact (editBudgetCmd_frame st cl).2
  · exact (deleteBudgetCmd_frame st cl).2
  · exact (spentCmd_frame env st cl).2
  · exact (oweCmd_frame env st cl).2
  · exact (billCmd_frame env st cl).2
  · obtain ⟨_, m, li, up, heq⟩ := summaryCmd_frame env st cl
    rw [heq]
    simp
  · simp only [anyVerb, h1, h2, h3, h4, h5, h6, h7] at h
    simp at h

/-- Dispatch reduction: a command starting with the characters of spent
is handled by the spent branch. -/
theorem interpCore_dispatch_spent (env : Env) (st : Ledger) (t : List Char) :
    interpCore env st ('s' :: 'p' :: 'e' :: 'n' :: 't' :: t) =
    spentCmd env st ('s' :: 'p' :: 'e' :: 'n' :: 't' :: t) := by
  unfold interpCore
  simp [List.isPrefixOf]

/-- Dispatch reduction for the owe branch. -/
theorem interpCore_dispatch_owe (env : Env) (st : Ledger) (t : List Char) :
    interpCore env st ('o' :: 'w' :: 'e' :: t) =
    oweCmd env st ('o' :: 'w' :: 'e' :: t) := by
  unfold interpCore
  simp [List.isPrefixOf]

/-- Dispatch reduction for the bill branch. -/
theorem interpCore_dispatch_bill (env : Env) (st : Ledger) (t : List Char) :
    interpCore env st ('b' :: 'i' :: 'l' :: 'l' :: t) =
    billCmd env st ('b' :: 'i' :: 'l' :: 'l' :: t) := by
  unfold interpCore
  simp [List.isPrefixOf]

/-- Dispatch reduction for the summary branch. -/
theorem interpCore_dispatch_summary (env : Env) (st : Ledger) (t : List Char) :
    interpCore env st ('s' :: 'u' :: 'm' :: 'm' :: 'a' :: 'r' :: 'y' :: t) =
    summaryCmd env st ('s' :: 'u' :: 'm' :: 'm' :: 'a' :: 'r' :: 'y' :: t) := by
  unfold interpCore
  simp [List.isPrefixOf]

/-- Dispatch reduction for the delete budget branch. -/
theorem interpCore_dispatch_delete (env : Env) (st : Ledger) (t : List Char) :
    interpCore env st ('d' :: 'e' :: 'l' :: 'e' :: 't' :: 'e' :: ' ' :: 'b' :: 'u' :: 'd' ::
      'g' :: 'e' :: 't' :: t) =
    deleteBudgetCmd st ('d' :: 'e' :: 'l' :: 'e' :: 't' :: 'e' :: ' ' :: 'b' :: 'u' :: 'd' ::
      'g' :: 'e' :: 't' :: t) := by
  unfold interpCore
  simp [List.isPrefixOf]

/-! ### Claim C1 -/

/-- Claim C1, counterexample: on the command set budget march food 100
travel xyz, the amount xyz does not parse, the interpreter answers the
invalid-amount error, and yet the budget entry for the preceding pair
(Food, 100) has been written to the ledger — the claim that no budget
entry is created for pairs preceding the bad amount is false. -/
theorem C1_counterexample :
    (expense_budget_monitor envMarch emptyLedger "set budget march food 100 travel xyz").1 =
      Resp.invalidAmount "xyz" ∧
    (expense_budget_monitor envMarch emptyLedger "set budget march food 100 travel xyz").2.budgets =
      [("March", [("Food", (100 : ℚ))])] :=
  ⟨by with_unfolding_all rfl, by with_unfolding_all rfl⟩

/-- Claim C1, amended: when a set budget amount fails to parse, the
interpreter returns the invalid-amount response, the pairs before the
bad pair are already written to the ledger (mutate-as-you-validate),
and the bad pair and the pairs after it are not written; concretely,
set budget march food 100 travel xyz writes Food before failing. -/
theorem C1_amended :
    (∀ (month : String) (good : List (List Char × List Char)) (st : Ledger)
       (cat bad : List Char) (rest : List (List Char)),
       (∀ p ∈ good, (pyFloat p.2).isSome = true) → pyFloat bad = none →
       setBudgetPairs month st (flatPairs good ++ cat :: bad :: rest) =
         (Resp.invalidAmount (String.mk bad), applyPairs month st good)) ∧
    (∀ (env : Env) (st : Ledger),
       expense_budget_monitor env st "set budget march food 100 travel xyz" =
         (Resp.invalidAmount "xyz",
          { st with budgets := budgetsInsert "March" "Food" 100 st.budgets })) := by
  constructor
  · intro month good
    induction good with
    | nil =>
      intro st cat bad rest _ hbad
      simp [flatPairs, setBudgetPairs, hbad, applyPairs]
    | cons p g' ih =>
      intro st cat bad rest hgood hbad
      obtain ⟨v, hv⟩ := Option.isSome_iff_exists.mp (hgood p (by simp))
      have hflat : flatPairs (p :: g') ++ cat :: bad :: rest =
          p.1 :: p.2 :: (flatPairs g' ++ cat :: bad :: rest) := rfl
      rw [hflat]
      simp only [setBudgetPairs, hv]
      rw [ih _ cat bad rest (fun q hq => hgood q (by simp [hq])) hbad]
      have happ : applyPairs month st (p :: g') =
          applyPairs month
            { st with budgets :=
                budgetsInsert month (pyCapitalizeL p.1) ((pyFloat p.2).getD 0) st.budgets } g' := rfl
      rw [happ, hv]
      rfl
  · intro env st
    with_unfolding_all rfl

/-- Claim C1, witness: the amended theorem applied to the concrete pair
list food 100 followed by the unparseable travel xyz. -/
theorem C1_witness :
    setBudgetPairs "March" emptyLedger
      ["food".toList, "100".toList, "travel".toList, "xyz".toList] =
      (Resp.invalidAmount "xyz",
       applyPairs "March" emptyLedger [("food".toList, "100".toList)]) :=
  C1_amended.1 "March" [("food".toList, "100".toList)] emptyLedger "travel".toList "xyz".toList []
    (by
      intro p hp
      rw [List.mem_singleton] at hp
      subst hp
      with_unfolding_all rfl)
    (by with_unfolding_all rfl)

/-! ### Claim C2 -/

/-- Claim C2, counterexample: set budget march food -5 carries the
negative amount -5, yet the interpreter accepts it, answers with the
success response and writes the negative budget — not a format error
and not free of mutation, so the claim is false for set budget. -/
theorem C2_counterexample :
    (expense_budget_monitor envMarch emptyLedger "set budget march food -5").1 =
      Resp.budgetSet "March" [("Food", (-5 : ℚ))] ∧
    (expense_budget_monitor envMarch emptyLedger "set budget march food -5").2.budgets =
      [("March", [("Food", (-5 : ℚ))])] :=
  ⟨by with_unfolding_all rfl, by with_unfolding_all rfl⟩

/-- Claim C2, amended: the regex commands spent, owe and bill only ever
record nonnegative amounts (their regexes admit only unsigned decimal
literals), but set budget and edit budget accept any float()-parseable
token including negative numbers: every expense or debt record a
command adds has a nonnegative amount, while edit budget march food -7
succeeds with the negative amount -7. -/
theorem C2_amended :
    (∀ (env : Env) (st : Ledger) (cmd : String),
       ∀ e ∈ (expense_budget_monitor env st cmd).2.expenses,
         e ∈ st.expenses ∨ 0 ≤ e.amount) ∧
    (∀ (env : Env) (st : Ledger) (cmd : String),
       ∀ d ∈ (expense_budget_monitor env st cmd).2.debts_bills,
         d ∈ st.debts_bills ∨ 0 ≤ d.amount) ∧
    (∀ env : Env,
       (expense_budget_monitor env stMarchFood "edit budget march food -7").1 =
         Resp.budgetUpdated "Food" "March" (-7)) := by
  refine ⟨?_, ?_, ?_⟩
  · intro env st cmd
    exact (interpCore_sub env st _).1
  · intro env st cmd d hd
    rcases (interpCore_sub env st _).2 d hd with h | h
    · exact Or.inl h
    · exact Or.inr h.2
  · intro env
    with_unfolding_all rfl

/-- Claim C2, witness: the amended theorem applied to a concrete spent
command, showing the recorded expense is either preexisting or
nonnegative. -/
theorem C2_witness :
    (⟨"March", "Food", 30, "2025-03-15T10:00:00"⟩ : Expense) ∈ stMarchFood.expenses ∨
      0 ≤ ((30 : ℚ)) := by
  have h := C2_amended.1 envMarch stMarchFood "spent 30 on food"
    ⟨"March", "Food", 30, "2025-03-15T10:00:00"⟩ ?_
  · exact h
  · have he : (expense_budget_monitor envMarch stMarchFood "spent 30 on food").2.expenses =
        [⟨"March", "Food", 30, "2025-03-15T10:00:00"⟩] := by with_unfolding_all rfl
    rw [he]
    exact List.mem_singleton_self _

/-! ### Claim C3 -/

/-- Claim C3, counterexample: owe Raj 500 stores the description raj,
the lower-cased text, not the original Raj — descriptive free text is
not preserved case-sensitively. -/
theorem C3_counterexample :
    (expense_budget_monitor envMarch emptyLedger "owe Raj 500").2.debts_bills =
      [⟨"debt", "raj", 500, none, false, "2025-03-15T10:00:00"⟩] ∧
    ("raj" : String) ≠ "Raj" :=
  ⟨by with_unfolding_all rfl, by decide⟩

/-- Claim C3, amended: the whole command, free text included, is
lower-cased before parsing: every command is interpreted exactly as its
stripped lower-cased form, so stored descriptions are the lower-cased
user text; concretely, owe Raj 500 answers with the description raj. -/
theorem C3_amended :
    (∀ (env : Env) (st : Ledger) (cmd : String),
       expense_budget_monitor env st cmd =
         expense_budget_monitor env st (String.mk (pyLowerL (pyStripL cmd.toList)))) ∧
    (∀ (env : Env) (st : Ledger),
       (expense_budget_monitor env st "owe Raj 500").1 = Resp.debtRecorded "raj" 500) := by
  constructor
  · intro env st cmd
    unfold expense_budget_monitor
    have ht : (String.mk (pyLowerL (pyStripL cmd.toList))).toList =
        pyLowerL (pyStripL cmd.toList) := rfl
    rw [ht, lowerStrip_idem]
  · intro env st
    with_unfolding_all rfl

/-! ### Claim C4 -/

/-- Claim C4, counterexample: after owe raj 500 and bill Electricity
1200 due 2025-04-10, the ledger holds both records, yet the summary
lists only the bill — the raj debt, whose due date is null, is missing
from the report, so the claim that the summary includes both is false. -/
theorem C4_counterexample :
    (runLedger emptyLedger
      [(envMarch, "owe raj 500"),
       (envMarch, "bill Electricity 1200 due 2025-04-10")]).debts_bills.length = 2 ∧
    (expense_budget_monitor envMarch
      (runLedger emptyLedger
        [(envMarch, "owe raj 500"),
         (envMarch, "bill Electricity 1200 due 2025-04-10")]) "summary").1 =
      Resp.summaryReport "March" []
        [⟨"bill", "electricity", 1200, some "2025-04-10", false, "2025-03-15T10:00:00"⟩] :=
  ⟨by with_unfolding_all rfl, by with_unfolding_all rfl⟩

/-- Claim C4, amended: the debts and bills listing of a summary contains
exactly the ledger records with a nonempty due date: bills appear,
debts (whose due date is null) are omitted. -/
theorem C4_amended :
    ∀ (env : Env) (st : Ledger), ∃ lines up,
      expense_budget_monitor env st "summary" =
        (Resp.summaryReport env.nowMonth lines up, st) ∧
      (∀ d ∈ up, d ∈ st.debts_bills) ∧
      (∀ d ∈ st.debts_bills, d.due_date = none → ¬ d ∈ up) ∧
      (∀ d ∈ st.debts_bills, ∀ s, d.due_date = some s → s ≠ "" → d ∈ up) := by
  intro env st
  refine ⟨((alistLookup env.nowMonth st.budgets).getD []).map (fun p =>
      SummaryLine.mk p.1 (spentTotal st.expenses env.nowMonth p.1) p.2
        (if p.2 = 0 then 0 else spentTotal st.expenses env.nowMonth p.1 / p.2 * 100)),
    st.debts_bills.filter dueTruthy, ?_, ?_, ?_, ?_⟩
  · with_unfolding_all rfl
  · intro d hd
    exact (List.mem_filter.mp hd).1
  · intro d _ hnone hmem
    have := (List.mem_filter.mp hmem).2
    simp [dueTruthy, hnone] at this
  · intro d hd s hs hne
    exact List.mem_filter.mpr ⟨hd, by simp [dueTruthy, hs, hne]⟩

/-- Claim C4, witness: the amended theorem applied to the two-record
ledger of the counterexample scenario. -/
theorem C4_witness :
    ∃ lines up,
      expense_budget_monitor envMarch
        (runLedger emptyLedger
          [(envMarch, "owe raj 500"),
           (envMarch, "bill Electricity 1200 due 2025-04-10")]) "summary" =
        (Resp.summaryReport envMarch.nowMonth lines up,
         runLedger emptyLedger
          [(envMarch, "owe raj 500"),
           (envMarch, "bill Electricity 1200 due 2025-04-10")]) ∧
      (∀ d ∈ up, d ∈ (runLedger emptyLedger
          [(envMarch, "owe raj 500"),
           (envMarch, "bill Electricity 1200 due 2025-04-10")]).debts_bills) ∧
      (∀ d ∈ (runLedger emptyLedger
          [(envMarch, "owe raj 500"),
           (envMarch, "bill Electricity 1200 due 2025-04-10")]).debts_bills,
         d.due_date = none → ¬ d ∈ up) ∧
      (∀ d ∈ (runLedger emptyLedger
          [(envMarch, "owe raj 500"),
           (envMarch, "bill Electricity 1200 due 2025-04-10")]).debts_bills,
         ∀ s, d.due_date = some s → s ≠ "" → d ∈ up) :=
  C4_amended envMarch _

/-! ### Claim C5 -/

/-- A successful spent match means the command starts with spent. -/
theorem spentMatch_isPrefix {cl : List Char} {x : List Char × List Char}
    (h : spentMatch cl = some x) : ("spent".toList).isPrefixOf cl = true := by
  simp only [spentMatch] at h
  split at h
  · assumption
  · exact absurd h (by simp)

/-- Claim C5: a spent command is rejected with the no-budget response and
the ledger is unchanged whenever the current month (from the clock, not
from the command text) has no budget entry for the parsed category. -/
theorem C5_spent_requires_budget :
    ∀ (env : Env) (st : Ledger) (cmd : String) (numTok catRaw : List Char),
      spentMatch (pyLowerL (pyStripL cmd.toList)) = some (numTok, catRaw) →
      budgetLookup env.nowMonth (pyCapitalizeL (pyStripL catRaw)) st.budgets = none →
      expense_budget_monitor env st cmd =
        (Resp.noBudgetForSpend (pyCapitalizeL (pyStripL catRaw)) env.nowMonth, st) := by
  intro env st cmd numTok catRaw hm hb
  unfold expense_budget_monitor
  obtain ⟨t, ht⟩ := List.isPrefixOf_iff_prefix.mp (spentMatch_isPrefix hm)
  rw [← ht] at hm ⊢
  rw [show interpCore env st ("spent".toList ++ t) = spentCmd env st ("spent".toList ++ t) from
    interpCore_dispatch_spent env st t]
  simp only [spentCmd, hm]
  cases halm : alistLookup env.nowMonth st.budgets with
  | none => rfl
  | some mcats =>
    have hcat : alistLookup (pyCapitalizeL (pyStripL catRaw)) mcats = none := by
      unfold budgetLookup at hb
      rw [halm] at hb
      exact hb
    simp only [hcat]

/-- Claim C5, witness: spent 100 on food against the empty ledger is
rejected for the current month March with the ledger unchanged. -/
theorem C5_witness :
    expense_budget_monitor envMarch emptyLedger "spent 100 on food" =
      (Resp.noBudgetForSpend "Food" "March", emptyLedger) := by
  have h := C5_spent_requires_budget envMarch emptyLedger "spent 100 on food"
    ("100".toList) ("food".toList) (by with_unfolding_all rfl) (by with_unfolding_all rfl)
  rw [show pyCapitalizeL (pyStripL ("food".toList)) = "Food" by with_unfolding_all rfl] at h
  exact h

/-! ### Claim C6 -/

/-- Decomposition of a token in the exact amount language: a nonempty
digit prefix and either nothing or a dot followed by digits. -/
theorem numExact_decomp {a : List Char} (h : numExact a = true) :
    (∃ c cs, a.takeWhile isDigitC = c :: cs) ∧
    (a.dropWhile isDigitC = [] ∨
     ∃ r2, a.dropWhile isDigitC = '.' :: r2 ∧ ∀ ch ∈ r2, isDigitC ch = true) := by
  simp only [numExact, Bool.and_eq_true, decide_eq_true_eq] at h
  obtain ⟨h1, h2⟩ := h
  constructor
  · obtain ⟨c, cs, hc⟩ := List.exists_cons_of_ne_nil h1
    exact ⟨c, cs, hc⟩
  · split at h2
    · next heq => exact Or.inl heq
    · next r2 heq =>
      refine Or.inr ⟨r2, heq, fun ch hch => ?_⟩
      exact List.all_eq_true.mp h2 ch hch
    · exact absurd h2 (by simp)

/-- The greedy amount match of a token in the exact language followed by
a non-digit non-dot character consumes exactly the token. -/
theorem numTake_append {a : List Char} (y : Char) (R : List Char) (ha : numExact a = true)
    (hy : isDigitC y = false) (hy2 : y ≠ '.') :
    numTake (a ++ y :: R) = some (a, y :: R) := by
  obtain ⟨⟨c, cs, htake⟩, hdrop⟩ := numExact_decomp ha
  rcases hdrop with hnil | ⟨r2, hr2, hall⟩
  · have hadig : ∀ ch ∈ a, isDigitC ch = true := by
      intro ch hch
      rw [← List.takeWhile_append_dropWhile isDigitC a, hnil, List.append_nil] at hch
      exact List.mem_takeWhile_imp hch
    have hane : a ≠ [] := by
      intro he
      rw [he] at htake
      exact absurd htake (by simp)
    simp only [numTake]
    rw [takeWhile_append_cons y R hadig hy, dropWhile_append_cons y R hadig hy]
    rw [if_neg (by simpa using hane)]
    split
    · next heq =>
      exfalso
      rw [List.cons.injEq] at heq
      exact hy2 heq.1
    · rfl
  · have hds : ∀ ch ∈ a.takeWhile isDigitC, isDigitC ch = true :=
      fun ch hch => List.mem_takeWhile_imp hch
    have ha2 : a ++ y :: R = a.takeWhile isDigitC ++ '.' :: (r2 ++ y :: R) := by
      conv_lhs => rw [← List.takeWhile_append_dropWhile isDigitC a, hr2]
      simp
    rw [ha2]
    simp only [numTake]
    rw [takeWhile_append_cons '.' (r2 ++ y :: R) hds (by decide),
        dropWhile_append_cons '.' (r2 ++ y :: R) hds (by decide)]
    rw [if_neg (by rw [htake]; simp)]
    show some (List.takeWhile isDigitC a ++ '.' :: List.takeWhile isDigitC (r2 ++ y :: R),
        List.dropWhile isDigitC (r2 ++ y :: R)) = some (a, y :: R)
    rw [takeWhile_append_cons y R hall hy, dropWhile_append_cons y R hall hy]
    rw [show a.takeWhile isDigitC ++ '.' :: r2 = a from by
      rw [← hr2]; exact List.takeWhile_append_dropWhile _ _]

/-- Every character of an exact amount token is a digit or the dot. -/
theorem numExact_chars {a : List Char} (h : numExact a = true) :
    ∀ ch ∈ a, isDigitC ch = true ∨ ch = '.' := by
  obtain ⟨_, hdrop⟩ := numExact_decomp h
  intro ch hch
  rw [← List.takeWhile_append_dropWhile isDigitC a, List.mem_append] at hch
  rcases hch with hch | hch
  · exact Or.inl (List.mem_takeWhile_imp hch)
  · rcases hdrop with hnil | ⟨r2, hr2, hall⟩
    · rw [hnil] at hch
      simp at hch
    · rw [hr2] at hch
      rcases List.mem_cons.mp hch with hch | hch
      · exact Or.inr hch
      · exact Or.inl (hall ch hch)

/-- Lower-casing fixes a list all of whose characters it fixes. -/
theorem pyLowerL_eq_self {l : List Char} (h : ∀ ch ∈ l, pyLowerChar ch = ch) :
    pyLowerL l = l := by
  unfold pyLowerL
  rw [List.map_congr_left h]
  simp

/-- Characters of the assembled spent command are fixed by lower-casing
and its ends are not whitespace, so strip and lower leave it unchanged. -/
theorem lowerStrip_mkSpent (a c : List Char) (ha : numExact a = true) (hc : tokOk c) :
    pyLowerL (pyStripL (mkSpentCmd a c)) = mkSpentCmd a c := by
  obtain ⟨hc0, hcch⟩ := hc
  obtain ⟨c0, cs', hceq⟩ := List.exists_cons_of_ne_nil hc0
  have hstrip : pyStripL (mkSpentCmd a c) = mkSpentCmd a c := by
    apply pyStripL_eq_self
    · intro ch hch
      rw [show mkSpentCmd a c = 's' :: ('p':: 'e':: 'n':: 't':: ' ':: (a ++ ' ':: 'o':: 'n':: ' ':: c))
        from by simp [mkSpentCmd]] at hch
      rw [List.head?_cons, Option.some_inj] at hch
      rw [← hch]
      decide
    · intro ch hch
      unfold mkSpentCmd at hch
      rw [List.getLast?_append] at hch
      have hcl : c.getLast?.isSome = true := List.getLast?_isSome.mpr hc0
      cases hgl : c.getLast? with
      | none => rw [hgl] at hcl; simp at hcl
      | some g =>
        rw [hgl] at hch
        rw [show (some g).or (("spent ".toList ++ a ++ " on ".toList).getLast?) = some g from rfl,
          Option.some_inj] at hch
        have hg : g ∈ c := List.mem_of_mem_getLast? (by rw [hgl]; exact rfl)
        rw [← hch]
        exact (hcch g hg).1
  rw [hstrip]
  apply pyLowerL_eq_self
  intro ch hch
  unfold mkSpentCmd at hch
  rw [List.mem_append, List.mem_append, List.mem_append] at hch
  rcases hch with ((hch | hch) | hch) | hch
  · fin_cases hch <;> decide
  · rcases numExact_chars ha ch hch with hd | hd
    · exact pyLowerChar_eq_self_of_lt (by rw [isDigitC_iff] at hd; omega)
    · rw [hd]; decide
  · fin_cases hch <;> decide
  · exact (hcch ch hch).2

/-- The spent regex on the assembled command matches the amount and the
category tokens exactly. -/
theorem spentMatch_mk (a c : List Char) (ha : numExact a = true) (hc : tokOk c) :
    spentMatch (mkSpentCmd a c) = some (a, c) := by
  obtain ⟨a0, as, haeq, ha0⟩ := numExact_head ha
  obtain ⟨hc0, hcch⟩ := hc
  obtain ⟨c0, cs', hceq⟩ := List.exists_cons_of_ne_nil hc0
  have hs0 : isSpaceC a0 = false := isDigitC_not_space ha0
  have hcs0 : isSpaceC c0 = false := (hcch c0 (by rw [hceq]; simp)).1
  have hnum : numTake (a ++ ' ' :: 'o':: 'n':: ' ':: c) = some (a, ' ' :: 'o':: 'n':: ' ':: c) :=
    numTake_append ' ' _ ha (by decide) (by decide)
  rw [show mkSpentCmd a c = 's':: 'p':: 'e':: 'n':: 't':: ' ':: (a ++ ' ':: 'o':: 'n':: ' ':: c) from by
    simp [mkSpentCmd]]
  simp only [spentMatch]
  rw [if_pos (by simp [List.isPrefixOf])]
  have hdrop5 : List.drop 5 ('s':: 'p':: 'e':: 'n':: 't':: ' ':: (a ++ ' ':: 'o':: 'n':: ' ':: c)) =
      ' ' :: (a ++ ' ':: 'o':: 'n':: ' ':: c) := rfl
  rw [hdrop5]
  have hw1 : List.takeWhile isSpaceC (' ' :: (a ++ ' ':: 'o':: 'n':: ' ':: c)) = [' '] := by
    rw [List.takeWhile_cons, if_pos (by decide), haeq, List.cons_append, List.takeWhile_cons,
      if_neg (by simp [hs0])]
  rw [hw1]
  rw [if_neg (by simp)]
  have hd1 : List.drop [' '].length (' ' :: (a ++ ' ':: 'o':: 'n':: ' ':: c)) =
      a ++ ' ':: 'o':: 'n':: ' ':: c := rfl
  have hw2 : List.takeWhile isSpaceC (' ':: 'o':: 'n':: ' ':: c) = [' '] := by
    rw [List.takeWhile_cons, if_pos (by decide), List.takeWhile_cons, if_neg (by decide)]
  have hd2 : List.drop [' '].length (' ':: 'o':: 'n':: ' ':: c) = 'o':: 'n':: ' ':: c := rfl
  have hw3 : List.takeWhile isSpaceC (' ' :: c) = [' '] := by
    rw [List.takeWhile_cons, if_pos (by decide), hceq, List.takeWhile_cons, if_neg (by simp [hcs0])]
  have hd3 : List.drop [' '].length (' ' :: c) = c := rfl
  have hnl : ¬(c0 = '\n') := ne_newline_of_not_space hcs0
  have htw : List.takeWhile (fun ch => decide (ch ≠ '\n')) cs' = cs' := by
    apply takeWhile_all
    intro ch hch
    simp [ne_newline_of_not_space (hcch ch (by rw [hceq]; simp [hch])).1]
  simp only [hd1, hnum]
  simp only [hw2, if_neg (show ¬([' '] = ([] : List Char)) by simp), hd2]
  simp only [hw3, hd3]
  rw [hceq]
  simp only [if_neg hnl, htw]
  rw [if_neg (show ¬([' '] = ([] : List Char)) by simp)]

/-- A well-behaved token strips to itself. -/
theorem pyStripL_tokOk {c : List Char} (hc : tokOk c) : pyStripL c = c := by
  obtain ⟨_, hcch⟩ := hc
  apply pyStripL_eq_self
  · intro ch hch
    exact (hcch ch (List.mem_of_mem_head? (by rw [hch]; exact rfl))).1
  · intro ch hch
    exact (hcch ch (List.mem_of_mem_getLast? (by rw [hch]; exact rfl))).1

/-- One accepted spent command: the expense is appended with the current
month, the normalized category and the parsed amount, and the response
reports the cumulative total, warning exactly when it exceeds the
budget. -/
theorem spent_step (env : Env) (st : Ledger) (a c : List Char) (B : ℚ)
    (ha : numExact a = true) (hc : tokOk c)
    (hB : budgetLookup env.nowMonth (pyCapitalizeL c) st.budgets = some B) :
    expense_budget_monitor env st (String.mk (mkSpentCmd a c)) =
      ((if spentTotal st.expenses env.nowMonth (pyCapitalizeL c) + (pyFloat a).getD 0 > B then
          Resp.exceededBudget (pyCapitalizeL c)
            (spentTotal st.expenses env.nowMonth (pyCapitalizeL c) + (pyFloat a).getD 0 - B)
            (spentTotal st.expenses env.nowMonth (pyCapitalizeL c) + (pyFloat a).getD 0)
        else
          Resp.recordedSpending ((pyFloat a).getD 0) (pyCapitalizeL c)
            (spentTotal st.expenses env.nowMonth (pyCapitalizeL c) + (pyFloat a).getD 0) B),
       { st with expenses := st.expenses ++
           [⟨env.nowMonth, pyCapitalizeL c, (pyFloat a).getD 0, env.nowIso⟩] }) := by
  have hcons : mkSpentCmd a c = 's':: 'p':: 'e':: 'n':: 't':: ' ':: (a ++ ' ':: 'o':: 'n':: ' ':: c) := by
    simp [mkSpentCmd]
  unfold expense_budget_monitor
  rw [show (String.mk (mkSpentCmd a c)).toList = mkSpentCmd a c from rfl,
    lowerStrip_mkSpent a c ha hc, hcons,
    interpCore_dispatch_spent env st (' ' :: (a ++ ' ':: 'o':: 'n':: ' ':: c)), ← hcons]
  simp only [spentCmd, spentMatch_mk a c ha hc]
  rw [pyStripL_tokOk hc]
  cases halm : alistLookup env.nowMonth st.budgets with
  | none =>
    unfold budgetLookup at hB
    rw [halm] at hB
    exact absurd hB (by simp)
  | some mcats =>
    have hcat : alistLookup (pyCapitalizeL c) mcats = some B := by
      unfold budgetLookup at hB
      rw [halm] at hB
      exact hB
    simp only [hcat]
    rw [spentTotal_snoc]
    split_ifs <;> rfl

/-- The fold of the interpreter over a nonempty command list does not
depend on the response component of its start value. -/
theorem foldl_interp_init (env : Env) :
    ∀ (cmds : List String) (st : Ledger) (r r' : Resp), cmds ≠ [] →
      cmds.foldl (fun p cmd => expense_budget_monitor env p.2 cmd) (r, st) =
      cmds.foldl (fun p cmd => expense_budget_monitor env p.2 cmd) (r', st)
  | [], _, _, _, h => absurd rfl h
  | cmd :: cs, st, r, r', _ => by
    rw [List.foldl_cons, List.foldl_cons]

/-- Accumulation over a run of accepted spent commands on one category,
starting from an arbitrary prior total. -/
theorem C6aux :
    ∀ (as : List (List Char)) (env : Env) (c : List Char) (B t0 : ℚ) (st : Ledger),
      tokOk c → (∀ a ∈ as, numExact a = true) → as ≠ [] →
      budgetLookup env.nowMonth (pyCapitalizeL c) st.budgets = some B →
      spentTotal st.expenses env.nowMonth (pyCapitalizeL c) = t0 →
      reportedTotal (runAll env st (as.map (fun a => String.mk (mkSpentCmd a c)))).1 =
        some (t0 + (as.map (fun a => (pyFloat a).getD 0)).sum) ∧
      ((isOverWarning (runAll env st (as.map (fun a => String.mk (mkSpentCmd a c)))).1 = true) ↔
        B < t0 + (as.map (fun a => (pyFloat a).getD 0)).sum)
  | [], _, _, _, _, _, _, _, h, _, _ => absurd rfl h
  | [a], env, c, B, t0, st, hc, has, _, hB, hT => by
    have hstep := spent_step env st a c B (has a (by simp)) hc hB
    simp only [runAll, List.map_cons, List.map_nil, List.foldl_cons, List.foldl_nil]
    rw [hstep, hT]
    constructor
    · split_ifs with hcmp
      · simp [reportedTotal]
      · simp [reportedTotal]
    · split_ifs with hcmp
      · simp only [isOverWarning, List.map_cons, List.map_nil, List.sum_cons, List.sum_nil,
          add_zero]
        exact iff_of_true trivial hcmp
      · simp only [isOverWarning, List.map_cons, List.map_nil, List.sum_cons, List.sum_nil,
          add_zero]
        constructor
        · intro hfalse
          exact absurd hfalse (by simp)
        · intro hlt
          exact absurd hlt hcmp
  | a :: a2 :: as', env, c, B, t0, st, hc, has, _, hB, hT => by
    have hstep := spent_step env st a c B (has a (by simp)) hc hB
    have hrw : runAll env st ((a :: a2 :: as').map (fun a => String.mk (mkSpentCmd a c))) =
        runAll env { st with expenses := st.expenses ++
            [⟨env.nowMonth, pyCapitalizeL c, (pyFloat a).getD 0, env.nowIso⟩] }
          ((a2 :: as').map (fun a => String.mk (mkSpentCmd a c))) := by
      simp only [runAll, List.map_cons, List.foldl_cons]
      rw [hstep]
    rw [hrw]
    have hih := C6aux (a2 :: as') env c B (t0 + (pyFloat a).getD 0)
      { st with expenses := st.expenses ++
          [⟨env.nowMonth, pyCapitalizeL c, (pyFloat a).getD 0, env.nowIso⟩] }
      hc (fun x hx => has x (by simp [hx])) (by simp) hB
      (by rw [show ({ st with expenses := st.expenses ++
          [⟨env.nowMonth, pyCapitalizeL c, (pyFloat a).getD 0, env.nowIso⟩] } : Ledger).expenses =
          st.expenses ++ [⟨env.nowMonth, pyCapitalizeL c, (pyFloat a).getD 0, env.nowIso⟩]
          from rfl, spentTotal_snoc, hT])
    have hsum : (List.map (fun x => (pyFloat x).getD 0) (a :: a2 :: as')).sum =
        (pyFloat a).getD 0 + (List.map (fun x => (pyFloat x).getD 0) (a2 :: as')).sum := by
      simp
    rw [hsum, ← add_assoc]
    exact hih

/-- Claim C6: starting from no prior spend, after a sequence of accepted
spent commands on one category of the current month, the last response
reports the sum of the amounts as the total, and it is the over-budget
warning exactly when that sum exceeds the budgeted amount. -/
theorem C6_cumulative :
    ∀ (env : Env) (c : List Char) (B : ℚ) (st : Ledger) (as : List (List Char)),
      tokOk c → (∀ a ∈ as, numExact a = true) → as ≠ [] →
      budgetLookup env.nowMonth (pyCapitalizeL c) st.budgets = some B →
      spentTotal st.expenses env.nowMonth (pyCapitalizeL c) = 0 →
      reportedTotal (runAll env st (as.map (fun a => String.mk (mkSpentCmd a c)))).1 =
        some ((as.map (fun a => (pyFloat a).getD 0)).sum) ∧
      ((isOverWarning (runAll env st (as.map (fun a => String.mk (mkSpentCmd a c)))).1 = true) ↔
        B < (as.map (fun a => (pyFloat a).getD 0)).sum) := by
  intro env c B st as hc has hne hB hT
  have h := C6aux as env c B 0 st hc has hne hB hT
  simpa using h

/-- Claim C6, witness: spending 1200 then 4500 against a 5000 budget for
Food in March reports the cumulative totals and ends with the
over-budget warning. -/
theorem C6_witness :
    reportedTotal (runAll envMarch stMarch5000
        (["1200".toList, "4500".toList].map
          (fun a => String.mk (mkSpentCmd a ("food".toList))))).1 =
      some ((["1200".toList, "4500".toList].map (fun a => (pyFloat a).getD 0)).sum) ∧
    ((isOverWarning (runAll envMarch stMarch5000
        (["1200".toList, "4500".toList].map
          (fun a => String.mk (mkSpentCmd a ("food".toList))))).1 = true) ↔
      (5000 : ℚ) < (["1200".toList, "4500".toList].map (fun a => (pyFloat a).getD 0)).sum) :=
  C6_cumulative envMarch ("food".toList) 5000 stMarch5000 ["1200".toList, "4500".toList]
    (by constructor
        · decide
        · decide)
    (by decide)
    (by decide)
    (by with_unfolding_all rfl)
    (by with_unfolding_all rfl)

/-! ### Claim C7 -/

/-- The assembled delete budget command is fixed by strip and lower. -/
theorem lowerStrip_mkDelete (m c : List Char) (hm : tokOk m) (hc : tokOk c) :
    pyLowerL (pyStripL (mkDeleteCmd m c)) = mkDeleteCmd m c := by
  obtain ⟨hm0, hmch⟩ := hm
  obtain ⟨hc0, hcch⟩ := hc
  have hstrip : pyStripL (mkDeleteCmd m c) = mkDeleteCmd m c := by
    apply pyStripL_eq_self
    · intro ch hch
      rw [show mkDeleteCmd m c =
          'd' :: ('e':: 'l':: 'e':: 't':: 'e':: ' ':: 'b':: 'u':: 'd':: 'g':: 'e':: 't':: ' ':: (m ++ ' ' :: c))
        from by simp [mkDeleteCmd]] at hch
      rw [List.head?_cons, Option.some_inj] at hch
      rw [← hch]
      decide
    · intro ch hch
      unfold mkDeleteCmd at hch
      rw [show ' ' :: c = [' '] ++ c from rfl, ← List.append_assoc, List.getLast?_append] at hch
      have hcl : c.getLast?.isSome = true := List.getLast?_isSome.mpr hc0
      cases hgl : c.getLast? with
      | none => rw [hgl] at hcl; simp at hcl
      | some g =>
        rw [hgl] at hch
        rw [show (some g).or (("delete budget ".toList ++ m ++ [' ']).getLast?) = some g from rfl,
          Option.some_inj] at hch
        rw [← hch]
        exact (hcch g (List.mem_of_mem_getLast? (by rw [hgl]; exact rfl))).1
  rw [hstrip]
  apply pyLowerL_eq_self
  intro ch hch
  unfold mkDeleteCmd at hch
  rw [List.mem_append, List.mem_append] at hch
  rcases hch with (hch | hch) | hch
  · fin_cases hch <;> decide
  · exact (hmch ch hch).2
  · rcases List.mem_cons.mp hch with hch | hch
    · rw [hch]; decide
    · exact (hcch ch hch).2

/-- Splitting the assembled delete budget command yields exactly the
four expected tokens. -/
theorem pySplit_mkDelete (m c : List Char) (hm : tokOk m) (hc : tokOk c) :
    pySplitL (mkDeleteCmd m c) = ["delete".toList, "budget".toList, m, c] := by
  obtain ⟨hm0, hmch⟩ := hm
  obtain ⟨hc0, hcch⟩ := hc
  have h1 : pySplitL (mkDeleteCmd m c) =
      "delete".toList :: "budget".toList :: pySplitAux [] (m ++ ' ' :: c) := by
    rw [show mkDeleteCmd m c =
        'd':: 'e':: 'l':: 'e':: 't':: 'e':: ' ':: 'b':: 'u':: 'd':: 'g':: 'e':: 't':: ' ':: (m ++ ' ' :: c)
      from by simp [mkDeleteCmd]]
    rfl
  rw [h1]
  rw [pySplitAux_token m c [] (fun ch hch => (hmch ch hch).1) (fun hme => absurd hme hm0)]
  rw [pySplitAux_last c [] (fun ch hch => (hcch ch hch).1) (fun hce => absurd hce hc0)]
  simp

/-- Claim C7: on a ledger where (month, category) has a budget entry,
delete budget removes exactly that entry; when it was the last category
of the month the month key disappears, otherwise the month stays with
every other category entry unchanged, and other months, the expenses
and the debts are untouched. -/
theorem C7_delete :
    ∀ (env : Env) (st : Ledger) (m c : List Char), tokOk m → tokOk c →
      ∀ mcats amt, alistLookup (pyCapitalizeL m) st.budgets = some mcats →
        alistLookup (pyCapitalizeL c) mcats = some amt →
        ∃ st', expense_budget_monitor env st (String.mk (mkDeleteCmd m c)) =
            (Resp.budgetDeleted (pyCapitalizeL c) (pyCapitalizeL m), st') ∧
          st'.expenses = st.expenses ∧ st'.debts_bills = st.debts_bills ∧
          (alistErase (pyCapitalizeL c) mcats = [] →
            alistLookup (pyCapitalizeL m) st'.budgets = none) ∧
          (alistErase (pyCapitalizeL c) mcats ≠ [] →
            alistLookup (pyCapitalizeL m) st'.budgets =
              some (alistErase (pyCapitalizeL c) mcats)) ∧
          (∀ c', c' ≠ pyCapitalizeL c →
            alistLookup c' (alistErase (pyCapitalizeL c) mcats) = alistLookup c' mcats) ∧
          (∀ m', m' ≠ pyCapitalizeL m →
            alistLookup m' st'.budgets = alistLookup m' st.budgets) := by
  intro env st m c hm hc mcats amt hmlk hclk
  have hred : expense_budget_monitor env st (String.mk (mkDeleteCmd m c)) =
      deleteBudgetCmd st (mkDeleteCmd m c) := by
    unfold expense_budget_monitor
    rw [show (String.mk (mkDeleteCmd m c)).toList = mkDeleteCmd m c from rfl,
      lowerStrip_mkDelete m c hm hc]
    rw [show mkDeleteCmd m c =
        'd':: 'e':: 'l':: 'e':: 't':: 'e':: ' ':: 'b':: 'u':: 'd':: 'g':: 'e':: 't':: ' ':: (m ++ ' ' :: c)
      from by simp [mkDeleteCmd]]
    exact interpCore_dispatch_delete env st (' ' :: (m ++ ' ' :: c))
  have hbody : deleteBudgetCmd st (mkDeleteCmd m c) =
      (Resp.budgetDeleted (pyCapitalizeL c) (pyCapitalizeL m),
       { st with budgets :=
          if alistErase (pyCapitalizeL c) mcats = [] then
            alistErase (pyCapitalizeL m) st.budgets
          else alistInsert (pyCapitalizeL m) (alistErase (pyCapitalizeL c) mcats) st.budgets }) := by
    simp only [deleteBudgetCmd, pySplit_mkDelete m c hm hc]
    rw [if_neg (by simp)]
    rw [show (["delete".toList, "budget".toList, m, c].getD 2 []) = m from rfl]
    rw [show (["delete".toList, "budget".toList, m, c].getD 3 []) = c from rfl]
    simp only [hmlk, hclk]
  rw [hred, hbody]
  refine ⟨_, rfl, rfl, rfl, ?_, ?_, ?_, ?_⟩
  · intro he
    show alistLookup (pyCapitalizeL m)
        (if alistErase (pyCapitalizeL c) mcats = [] then
          alistErase (pyCapitalizeL m) st.budgets
        else alistInsert (pyCapitalizeL m) (alistErase (pyCapitalizeL c) mcats) st.budgets) = none
    rw [if_pos he]
    exact alistLookup_erase_self _ _
  · intro he
    show alistLookup (pyCapitalizeL m)
        (if alistErase (pyCapitalizeL c) mcats = [] then
          alistErase (pyCapitalizeL m) st.budgets
        else alistInsert (pyCapitalizeL m) (alistErase (pyCapitalizeL c) mcats) st.budgets) =
      some (alistErase (pyCapitalizeL c) mcats)
    rw [if_neg he]
    exact alistLookup_insert_self _ _ _
  · intro c' hne
    exact alistLookup_erase_ne mcats hne
  · intro m' hne
    show alistLookup m'
        (if alistErase (pyCapitalizeL c) mcats = [] then
          alistErase (pyCapitalizeL m) st.budgets
        else alistInsert (pyCapitalizeL m) (alistErase (pyCapitalizeL c) mcats) st.budgets) =
      alistLookup m' st.budgets
    split
    · exact alistLookup_erase_ne st.budgets hne
    · exact alistLookup_insert_ne _ st.budgets hne

/-- Claim C7, witness: deleting Travel from a March ledger with Food and
Travel budgets keeps the month with Food intact. -/
theorem C7_witness :
    ∃ st', expense_budget_monitor envMarch stMarchTwo
        (String.mk (mkDeleteCmd ("march".toList) ("travel".toList))) =
        (Resp.budgetDeleted (pyCapitalizeL ("travel".toList)) (pyCapitalizeL ("march".toList)),
         st') ∧
      st'.expenses = stMarchTwo.expenses ∧ st'.debts_bills = stMarchTwo.debts_bills ∧
      (alistErase (pyCapitalizeL ("travel".toList)) [("Food", (100 : ℚ)), ("Travel", 50)] = [] →
        alistLookup (pyCapitalizeL ("march".toList)) st'.budgets = none) ∧
      (alistErase (pyCapitalizeL ("travel".toList)) [("Food", (100 : ℚ)), ("Travel", 50)] ≠ [] →
        alistLookup (pyCapitalizeL ("march".toList)) st'.budgets =
          some (alistErase (pyCapitalizeL ("travel".toList)) [("Food", (100 : ℚ)), ("Travel", 50)])) ∧
      (∀ c', c' ≠ pyCapitalizeL ("travel".toList) →
        alistLookup c' (alistErase (pyCapitalizeL ("travel".toList))
          [("Food", (100 : ℚ)), ("Travel", 50)]) =
          alistLookup c' [("Food", (100 : ℚ)), ("Travel", 50)]) ∧
      (∀ m', m' ≠ pyCapitalizeL ("march".toList) →
        alistLookup m' st'.budgets = alistLookup m' stMarchTwo.budgets) :=
  C7_delete envMarch stMarchTwo ("march".toList) ("travel".toList)
    (by constructor
        · decide
        · decide)
    (by constructor
        · decide
        · decide)
    [("Food", (100 : ℚ)), ("Travel", 50)] 50
    (by with_unfolding_all rfl)
    (by with_unfolding_all rfl)

/-! ### Claim C8 -/

/-- Claim C8: every summary command produces a report and leaves the
ledger untouched, and every line whose budget amount is zero reports a
percentage of zero, with no division attempted. -/
theorem C8_summary_safe :
    ∀ (env : Env) (st : Ledger) (s : String),
      ("summary".toList).isPrefixOf (pyLowerL (pyStripL s.toList)) = true →
      ∃ month lines up, expense_budget_monitor env st s =
          (Resp.summaryReport month lines up, st) ∧
        ∀ li ∈ lines, li.budgetAmt = 0 → li.pct = 0 := by
  intro env st s hpre
  unfold expense_budget_monitor
  obtain ⟨t, ht⟩ := List.isPrefixOf_iff_prefix.mp hpre
  rw [← ht]
  rw [show interpCore env st ("summary".toList ++ t) =
      summaryCmd env st ("summary".toList ++ t) from interpCore_dispatch_summary env st t]
  refine ⟨_, _, _, rfl, ?_⟩
  intro li hli hz
  simp only [List.mem_map] at hli
  obtain ⟨p, _, hp⟩ := hli
  rw [← hp] at hz ⊢
  simp only [] at hz ⊢
  rw [if_pos hz]

/-- Claim C8, witness: a summary over a ledger whose Food budget is zero
reports a zero percentage. -/
theorem C8_witness :
    ∃ month lines up, expense_budget_monitor envMarch stMarchZero "summary" =
        (Resp.summaryReport month lines up, stMarchZero) ∧
      ∀ li ∈ lines, li.budgetAmt = 0 → li.pct = 0 :=
  C8_summary_safe envMarch stMarchZero "summary" (by decide)

/-! ### Claim C9 -/

/-- Preservation: running command lists keeps every debt or bill record
unpaid when all existing ones are unpaid. -/
theorem runLedger_unpaid :
    ∀ (cmds : List (Env × String)) (st : Ledger),
      (∀ d ∈ st.debts_bills, d.is_paid = false) →
      ∀ d ∈ (runLedger st cmds).debts_bills, d.is_paid = false
  | [], st, h => h
  | (env, cmd) :: rest, st, h => by
    apply runLedger_unpaid rest
    intro d hd
    rcases (interpCore_sub env st (pyLowerL (pyStripL cmd.toList))).2 d hd with hmem | hnew
    · exact h d hmem
    · exact hnew.1

/-- Claim C9: in every ledger reachable from the empty ledger by any
command sequence, every debt and bill record has is_paid false — owe and
bill create unpaid records and no command ever marks one paid. -/
theorem C9_unpaid_invariant :
    ∀ (cmds : List (Env × String)) (d : DebtBill),
      d ∈ (runLedger emptyLedger cmds).debts_bills → d.is_paid = false := by
  intro cmds d hd
  exact runLedger_unpaid cmds emptyLedger (by intro d' hd'; simp [emptyLedger] at hd') d hd

/-- Claim C9, witness: the invariant applied to the record created by a
concrete owe command. -/
theorem C9_witness :
    (⟨"debt", "raj", 500, none, false, "2025-03-15T10:00:00"⟩ : DebtBill).is_paid = false := by
  apply C9_unpaid_invariant [(envMarch, "owe raj 500")]
  have h : (runLedger emptyLedger [(envMarch, "owe raj 500")]).debts_bills =
      [⟨"debt", "raj", 500, none, false, "2025-03-15T10:00:00"⟩] := by
    with_unfolding_all rfl
  rw [h]
  exact List.mem_singleton_self _

/-! ### Claim C10 -/

/-- Claim C10, counterexample: summaryx starts with the verb summary but
is not a well-formed summary command, and its response is a summary
report for the current month, not a format error; likewise set budgetx
march food 5 starts with the verb set budget, is garbled, and succeeds
outright — so verb-prefixed malformed input does not always receive the
verb's format-error message. -/
theorem C10_counterexample :
    (expense_budget_monitor envMarch emptyLedger "summaryx").1 =
      Resp.summaryReport "March" [] [] ∧
    (expense_budget_monitor envMarch emptyLedger "set budgetx march food 5").1 =
      Resp.budgetSet "March" [("Food", (5 : ℚ))] :=
  ⟨by with_unfolding_all rfl, by with_unfolding_all rfl⟩

/-- Claim C10, amended: dispatch matches verbs by string prefix on the
trimmed lowercased input, so an input starting with any of the seven
verb strings is never answered with the unknown-command response; for
the regex verbs, a prefix match that fails the verb's pattern receives
the verb's format error, as owen 5 and billing x show — but not every
verb-prefixed malformed input gets a format error. -/
theorem C10_amended :
    (∀ (env : Env) (st : Ledger) (s : String),
       anyVerb (pyLowerL (pyStripL s.toList)) = true →
       (expense_budget_monitor env st s).1 ≠ Resp.unknownCommand) ∧
    (∀ (env : Env) (st : Ledger),
       (expense_budget_monitor env st "owen 5").1 = Resp.oweFormatError) ∧
    (∀ (env : Env) (st : Ledger),
       (expense_budget_monitor env st "billing x").1 = Resp.billFormatError) := by
  refine ⟨?_, ?_, ?_⟩
  · intro env st s h
    exact interpCore_not_unknown env st _ h
  · intro env st
    with_unfolding_all rfl
  · intro env st
    with_unfolding_all rfl

/-- Claim C10, witness: the amended theorem applied to a concrete
verb-prefixed command. -/
theorem C10_witness :
    (expense_budget_monitor envMarch emptyLedger "owen 5").1 ≠ Resp.unknownCommand :=
  C10_amended.1 envMarch emptyLedger "owen 5" (by decide)
